import Mathlib

/-!
# Outage monitor: a verification development

A shallow embedding of the extraction pipeline (`internal/parser`), the
persistence layer (`internal/repo`), and the data model and the refresh
service (`internal/outage`) of the outage monitor, together with theorems
about them.

Conventions of the embedding.

* A Go `string` or `[]byte` holding text is a `String`, and every loop that the
  source runs over runes (`for _, r := range s`) runs over `String.toList`.
  Text that is not valid UTF-8 is outside the model.
* A Go function returning `(T, error)` returns a pair `T × Option Error`,
  so that the value returned next to a non-nil error stays visible.
* A Go run-time panic (an index out of range) is the `GoResult.panic`
  outcome: the function does not return.
* The libraries the source calls (`regexp`, `time`, `strconv`, `strings`,
  `html`, `lo`, the store service) are modelled as far as the source uses
  them; what the network and the store answer is a parameter.
* The table of the store is passed to `SaveOutages` and `GetOutages` and
  returned by `SaveOutages`.
* The loop of the service, the context and the ticker, which run
  concurrently, are one machine that takes a step for each event of a
  schedule.
-/

namespace OutageMonitor

/-! ## Go values: errors, panics, `strings` -/

/-- A Go `error` value. `parser msg` is the value `errorParser(msg)` of
`internal/parser/errors.go`, `wrap pfx e` is `fmt.Errorf(pfx + ": %w", e)`, and
`lib` is an error made by a library (`time`, `strconv`, `net/http`,
`encoding/json`, the store client). -/
inductive Error where
  | parser (msg : String)
  | wrap (pfx : String) (err : Error)
  | lib (msg : String)
  deriving DecidableEq, Repr

/-- The outcome of running a Go function: it returns a value, or the run-time
panics (here always an index out of range) and nothing is returned. -/
inductive GoResult (α : Type) where
  | ret (a : α)
  | panic (msg : String)
  deriving DecidableEq, Repr

/-- Sequencing of Go statements: a panic in the first ends the function. -/
def GoResult.bind {α β : Type} (x : GoResult α) (f : α → GoResult β) : GoResult β :=
  match x with
  | .ret a => f a
  | .panic msg => .panic msg

/-- Indexing `xs[i]` of a Go slice: a run-time panic when `i` is out of range. -/
def sliceIndex {α : Type} (xs : List α) (i : Nat) : GoResult α :=
  match xs.get? i with
  | some a => .ret a
  | none => .panic s!"index out of range [{i}] with length {xs.length}"

/-- The predicate `unicode.IsSpace`: the white space characters of Unicode. -/
def isSpace (c : Char) : Bool :=
  let n := c.toNat
  (9 ≤ n && n ≤ 13) || n == 32 || n == 0x85 || n == 0xA0 || n == 0x1680 ||
  (0x2000 ≤ n && n ≤ 0x200A) || n == 0x2028 || n == 0x2029 || n == 0x202F ||
  n == 0x205F || n == 0x3000

/-- The function `strings.TrimSpace` on the runes of a string. -/
def trimSpaceList (s : List Char) : List Char :=
  ((s.dropWhile isSpace).reverse.dropWhile isSpace).reverse

/-- The function `strings.TrimSpace`. -/
def TrimSpace (s : String) : String := String.mk (trimSpaceList s.toList)

/-- The function `strings.CutSuffix`: the string without the suffix and `true`,
or the string itself and `false`. -/
def CutSuffix (s sfx : String) : String × Bool :=
  if sfx.toList.isSuffixOf s.toList then
    (String.mk (s.toList.take (s.length - sfx.length)), true)
  else (s, false)

/-! ## Go `regexp`: the fragment the patterns of the parser use

The five patterns of `NewWaterGovGe` are concatenations of literal runes,
single classes, greedily repeated classes and one capture group. The matcher
is a backtracking one, which is the match Go's `regexp` promises ("the match
that a backtracking search would have found first"). -/

namespace regexp

/-- A character class of the patterns. -/
inductive RxClass where
  /-- The class `\s`, which is `[\t\n\f\r ]`. -/
  | space
  /-- The class `\d`, which is `[0-9]`. -/
  | digit
  /-- The class `[\d/\s:]`. -/
  | dateTime
  /-- The class `[^<>]`. -/
  | notAngle
  /-- The class `.`, any rune but the line feed. -/
  | dot
  deriving DecidableEq, Repr

def isRxSpace (c : Char) : Bool :=
  c == '\t' || c == '\n' || c == Char.ofNat 12 || c == '\r' || c == ' '

def isRxDigit (c : Char) : Bool := '0' ≤ c && c ≤ '9'

def RxClass.test : RxClass → Char → Bool
  | .space, c => isRxSpace c
  | .digit, c => isRxDigit c
  | .dateTime, c => isRxDigit c || c == '/' || isRxSpace c || c == ':'
  | .notAngle, c => !(c == '<' || c == '>')
  | .dot, c => !(c == '\n')

/-- One item of a pattern. -/
inductive RxItem where
  | lit (c : Char)
  | one (cls : RxClass)
  | star (cls : RxClass)
  | plus (cls : RxClass)
  | groupOpen
  | groupClose
  deriving DecidableEq, Repr

abbrev Regexp := List RxItem

/-- A match: the end of the whole match and the bounds of the capture group,
as rune offsets into the searched text. -/
structure RxMatch where
  stop : Nat
  capStart : Nat
  capStop : Nat
  deriving DecidableEq, Repr

/-- Greedy repetition of a class, then the continuation `k`: the longest run is
tried first and given back one rune at a time. -/
def rxStar (cls : RxClass) (k : Nat → List Char → Option RxMatch) :
    Nat → List Char → Option RxMatch
  | pos, [] => k pos []
  | pos, c :: s =>
    if cls.test c then
      match rxStar cls k (pos + 1) s with
      | some m => some m
      | none => k pos (c :: s)
    else k pos (c :: s)

/-- Match a pattern at the head of the text `s`, which starts at offset `pos`. -/
def rxRun : Regexp → Nat → Nat → Nat → List Char → Option RxMatch
  | [], cs, ce => fun pos _ => some ⟨pos, cs, ce⟩
  | .lit c :: rest, cs, ce => fun pos s =>
    match s with
    | d :: s1 => if d = c then rxRun rest cs ce (pos + 1) s1 else none
    | [] => none
  | .one cls :: rest, cs, ce => fun pos s =>
    match s with
    | d :: s1 => if cls.test d then rxRun rest cs ce (pos + 1) s1 else none
    | [] => none
  | .star cls :: rest, cs, ce => rxStar cls (rxRun rest cs ce)
  | .plus cls :: rest, cs, ce => fun pos s =>
    match s with
    | d :: s1 => if cls.test d then rxStar cls (rxRun rest cs ce) (pos + 1) s1 else none
    | [] => none
  | .groupOpen :: rest, _, ce => fun pos s => rxRun rest pos ce pos s
  | .groupClose :: rest, cs, _ => fun pos s => rxRun rest cs pos pos s

/-- The leftmost match in the text `s`, which starts at offset `pos`: its start
and the match. -/
def rxFind (re : Regexp) : Nat → List Char → Option (Nat × RxMatch)
  | pos, [] => (rxRun re 0 0 pos []).map (fun m => (pos, m))
  | pos, c :: s =>
    match rxRun re 0 0 pos (c :: s) with
    | some m => some (pos, m)
    | none => rxFind re (pos + 1) s

/-- The runes `doc[lo:hi]`. -/
def sliceRunes (doc : List Char) (lo hi : Nat) : String :=
  String.mk ((doc.drop lo).take (hi - lo))

/-- The result slice of `FindSubmatch` for a match: the whole match, then the
capture group. -/
def submatchOf (doc : List Char) (start : Nat) (m : RxMatch) : List String :=
  [sliceRunes doc start m.stop, sliceRunes doc m.capStart m.capStop]

/-- The method `(*Regexp).FindSubmatch`: the leftmost match and its group, or
the nil slice. -/
def FindSubmatch (re : Regexp) (b : String) : List String :=
  match rxFind re 0 b.toList with
  | some (start, m) => submatchOf b.toList start m
  | none => []

/-- The successive matches from offset `pos` on; `skip` runes of `s` still
belong to the match found last. -/
def rxFindAll (re : Regexp) : Nat → Nat → List Char → List (Nat × RxMatch)
  | _, _, [] => []
  | skip + 1, pos, _ :: s => rxFindAll re skip (pos + 1) s
  | 0, pos, c :: s =>
    match rxRun re 0 0 pos (c :: s) with
    | some m => (pos, m) :: rxFindAll re (m.stop - pos - 1) (pos + 1) s
    | none => rxFindAll re 0 (pos + 1) s

/-- The method `(*Regexp).FindAllSubmatch(b, -1)` for a pattern that matches no
empty text: the successive non-overlapping matches, each with its group. -/
def FindAllSubmatch (re : Regexp) (b : String) : List (List String) :=
  (rxFindAll re 0 0 b.toList).map (fun sm => submatchOf b.toList sm.1 sm.2)

end regexp

/-! ## Go `time`: instants, locations, `Date`, `Format` and `Parse`

An instant is kept as the count of seconds since the Unix epoch (Go keeps the
same count from another origin). Go's 64-bit wrap-around of that count, which
only years further than 292 billion from now reach, is not modelled. -/

namespace time

/-- A transition of a location: from the instant `when` on, `offset` seconds
east of UTC are in effect. -/
structure zoneTrans where
  when : Int
  offset : Int
  deriving DecidableEq, Repr

/-- The type `time.Location`: the offset in effect before the first transition
and the transitions in increasing order of time. -/
structure Location where
  name : String
  offset : Int
  tx : List zoneTrans
  deriving DecidableEq, Repr

def UTC : Location := ⟨"UTC", 0, []⟩

def FixedZone (name : String) (offset : Int) : Location := ⟨name, offset, []⟩

/-- The constant `alpha`, the beginning of time of `lookup`. -/
def alpha : Int := -(2 ^ 63)

/-- The constant `omega` of the source, the end of time of `lookup`. -/
def omegaEnd : Int := 2 ^ 63 - 1

/-- The search of `lookup` through the transitions, the zone `(offset, start)`
being the one in effect before `tx`. -/
def lookupFrom : List zoneTrans → Int → Int → Int → Int × Int × Int
  | [], offset, start, _ => (offset, start, omegaEnd)
  | t :: rest, offset, start, sec =>
    if sec < t.when then (offset, start, t.when) else lookupFrom rest t.offset t.when sec

/-- The method `(*Location).lookup`: the offset in effect at the instant `sec`
and the bounds `start <= sec < end` of the period it is in effect. -/
def Location.lookup (l : Location) (sec : Int) : Int × Int × Int :=
  lookupFrom l.tx l.offset alpha sec

/-- The type `time.Time`: seconds since the Unix epoch, nanoseconds within the
second, and the location the instant is read in. -/
structure Time where
  sec : Int
  nsec : Int
  loc : Location
  deriving DecidableEq, Repr

/-- The zero value `time.Time{}`: 1 January of year 1, 00:00:00 UTC. -/
def Time.zero : Time := ⟨-62135596800, 0, UTC⟩

/-- The method `Time.Equal`: the same instant, whatever the locations. -/
def Time.Equal (t u : Time) : Bool := t.sec == u.sec && t.nsec == u.nsec

/-- The method `Time.After`. -/
def Time.After (t u : Time) : Bool := t.sec > u.sec || (t.sec == u.sec && t.nsec > u.nsec)

/-- The method `Time.Before`. -/
def Time.Before (t u : Time) : Bool := t.sec < u.sec || (t.sec == u.sec && t.nsec < u.nsec)

def isLeap (year : Int) : Bool :=
  year % 4 == 0 && (year % 100 != 0 || year % 400 == 0)

/-- The table `daysBefore`: `daysBefore m` is the count of days in a non-leap
year before month `m + 1`. -/
def daysBefore : Int → Int
  | 0 => 0 | 1 => 31 | 2 => 59 | 3 => 90 | 4 => 120 | 5 => 151 | 6 => 181
  | 7 => 212 | 8 => 243 | 9 => 273 | 10 => 304 | 11 => 334 | _ => 365

def daysIn (m : Int) (year : Int) : Int :=
  if m == 2 && isLeap year then 29 else daysBefore m - daysBefore (m - 1)

/-- The days from 1 January of year 1 to 1 January of `year`. -/
def daysSinceYearOne (year : Int) : Int :=
  let y := year - 1
  365 * y + y / 4 - y / 100 + y / 400

/-- The days from 1 January of year 1 to the Unix epoch. -/
def unixEpochDays : Int := 719162

/-- The function `time.Date`. The values are normalised as Go does (a month
beyond 12 carries into the year, and so on down to the nanoseconds), the
instant is computed as if the civil time were in UTC and then moved by the
offset the location has there. -/
def Date (year month day hour min sec nsec : Int) (loc : Location) : Time :=
  let m0 := month - 1
  let year := year + m0 / 12
  let month := m0 % 12 + 1
  let sec := sec + nsec / 1000000000
  let nsec := nsec % 1000000000
  let min := min + sec / 60
  let sec := sec % 60
  let hour := hour + min / 60
  let min := min % 60
  let day := day + hour / 24
  let hour := hour % 24
  let d := daysSinceYearOne year + daysBefore (month - 1) +
    (if isLeap year && month ≥ 3 then 1 else 0) + (day - 1)
  let unix := (d - unixEpochDays) * 86400 + hour * 3600 + min * 60 + sec
  let (offset, start, stop) := loc.lookup unix
  let unix :=
    if offset != 0 then
      let utc := unix - offset
      if utc < start || utc ≥ stop then unix - (loc.lookup utc).1 else unix - offset
    else unix
  ⟨unix, nsec, loc⟩

/-- The first half of the function `absDate`: the year of the day that is `d`
days after 1 January of year 1, and the day within that year, from 0. The
cycles of 400, 100, 4 and 1 years are cut off in turn. -/
def absYear (d : Int) : Int × Int :=
  let n400 := d / 146097
  let d := d - 146097 * n400
  let n100 := d / 36524
  let n100 := n100 - n100 / 4
  let d := d - 36524 * n100
  let n4 := d / 1461
  let d := d - 1461 * n4
  let n1 := d / 365
  let n1 := n1 - n1 / 4
  let d := d - 365 * n1
  (400 * n400 + 100 * n100 + 4 * n4 + n1 + 1, d)

/-- The second half of the function `absDate`: month and day of the day `yday`
of a year, the month being estimated as if every month had 31 days. -/
def absMonthDay (leap : Bool) (yday : Int) : Int × Int :=
  let day := if leap && yday > 31 + 29 - 1 then yday - 1 else yday
  if leap && yday == 31 + 29 - 1 then (2, 29)
  else
    let month := day / 31
    let stop := daysBefore (month + 1)
    if day ≥ stop then (month + 2, day - stop + 1)
    else (month + 1, day - daysBefore month + 1)

/-- The function `absDate`: year, month and day of the day that is `d` days after
1 January of year 1. -/
def absDate (d : Int) : Int × Int × Int :=
  let (year, yday) := absYear d
  let (month, day) := absMonthDay (isLeap year) yday
  (year, month, day)

/-- The civil reading of an instant in its location: the offset in effect, then
year, month, day, hour, minute and second. -/
structure Civil where
  offset : Int
  year : Int
  month : Int
  day : Int
  hour : Int
  min : Int
  sec : Int
  deriving DecidableEq, Repr

/-- The methods `locabs`, `absDate` and `absClock` together. -/
def Time.civil (t : Time) : Civil :=
  let offset := (t.loc.lookup t.sec).1
  let abs := t.sec + offset
  let (year, month, day) := absDate (abs / 86400 + unixEpochDays)
  let s := abs % 86400
  ⟨offset, year, month, day, s / 3600, s % 3600 / 60, s % 60⟩

/-- The element of a layout that stands for a field. -/
inductive Std where
  /-- The element `2006`. -/
  | stdLongYear
  /-- The element `01`. -/
  | stdZeroMonth
  /-- The element `02`. -/
  | stdZeroDay
  /-- The element `15`. -/
  | stdHour
  /-- The element `04`. -/
  | stdZeroMinute
  /-- The element `05`. -/
  | stdZeroSecond
  /-- The element `Z07:00`. -/
  | stdISO8601ColonTZ
  deriving DecidableEq, Repr

/-- A layout string cut by `nextStdChunk`: each field element with the literal
text before it, and the literal text after the last one. -/
structure Layout where
  chunks : List (String × Std)
  tail : String
  deriving DecidableEq, Repr

/-- The layout `time.RFC3339`, which is `2006-01-02T15:04:05Z07:00`. -/
def RFC3339 : Layout :=
  ⟨[("", .stdLongYear), ("-", .stdZeroMonth), ("-", .stdZeroDay), ("T", .stdHour),
    (":", .stdZeroMinute), (":", .stdZeroSecond), ("", .stdISO8601ColonTZ)], ""⟩

def digitChar (d : Nat) : Char := Char.ofNat (48 + d)

/-- The function `appendInt`: the decimal digits of `x`, with a sign when it is
negative, zero-padded to `width`. -/
def appendInt (x : Int) (width : Nat) : List Char :=
  let u := x.natAbs
  (if x < 0 then ['-'] else []) ++
  (if width = 2 ∧ u < 100 then [digitChar (u / 10), digitChar (u % 10)]
   else if width = 4 ∧ u < 10000 then
     [digitChar (u / 1000), digitChar (u / 100 % 10), digitChar (u / 10 % 10), digitChar (u % 10)]
   else
     let ds := Nat.toDigits 10 u
     List.replicate (width - ds.length) '0' ++ ds)

/-- The text of one field element in `Format`. -/
def formatStd (c : Civil) : Std → List Char
  | .stdLongYear => appendInt c.year 4
  | .stdZeroMonth => appendInt c.month 2
  | .stdZeroDay => appendInt c.day 2
  | .stdHour => appendInt c.hour 2
  | .stdZeroMinute => appendInt c.min 2
  | .stdZeroSecond => appendInt c.sec 2
  | .stdISO8601ColonTZ =>
    if c.offset == 0 then ['Z']
    else
      let zone := Int.tdiv c.offset 60
      (if zone < 0 then ['-'] else ['+']) ++
        appendInt (Int.tdiv (Int.natAbs zone) 60) 2 ++ [':'] ++
        appendInt (Int.tmod (Int.natAbs zone) 60) 2

/-- The method `Time.Format`. -/
def Time.Format (t : Time) (layout : Layout) : String :=
  let c := t.civil
  String.mk ((layout.chunks.map (fun ch => ch.1.toList ++ formatStd c ch.2)).flatten ++
    layout.tail.toList)

/-- The layout `02/01/2006 15:04:05` of the outage pages. -/
def outageLayout : Layout :=
  ⟨[("", .stdZeroDay), ("/", .stdZeroMonth), ("/", .stdLongYear), (" ", .stdHour),
    (":", .stdZeroMinute), (":", .stdZeroSecond)], ""⟩

def isDigitChar (c : Char) : Bool := '0' ≤ c && c ≤ '9'

def digitVal (c : Char) : Int := (c.toNat : Int) - 48

/-- The function `getnum`: a number of one or two digits at the head of the
text, of exactly two when `fixed`, and the rest of the text. -/
def getnum : List Char → Bool → Option (Int × List Char)
  | [], _ => none
  | [c0], fixed =>
    if !isDigitChar c0 then none
    else if fixed then none
    else some (digitVal c0, [])
  | c0 :: c1 :: rest, fixed =>
    if !isDigitChar c0 then none
    else if !isDigitChar c1 then (if fixed then none else some (digitVal c0, c1 :: rest))
    else some (digitVal c0 * 10 + digitVal c1, rest)

/-- The function `atoi` of the package on digits only: the number they denote,
`none` for any other rune. -/
def atoiDigits : List Char → Int → Option Int
  | [], acc => some acc
  | c :: rest, acc => if isDigitChar c then atoiDigits rest (acc * 10 + digitVal c) else none

/-- The function `cutspace`. -/
def cutspace : List Char → List Char
  | ' ' :: rest => cutspace rest
  | s => s

/-- The function `skip`: the text after the literal `pfx`, where a space of the
layout stands for any run of spaces of the text. -/
def skip : List Char → List Char → Nat → Option (List Char)
  | value, [], _ => some value
  | _, _ :: _, 0 => none
  | value, p :: pfx, fuel + 1 =>
    if p = ' ' then
      match value with
      | v :: _ => if v ≠ ' ' then none else skip (cutspace value) (cutspace (p :: pfx)) fuel
      | [] => skip (cutspace value) (cutspace (p :: pfx)) fuel
    else
      match value with
      | v :: rest => if v ≠ p then none else skip rest pfx fuel
      | [] => none

/-- The fields `Parse` collects. -/
structure Fields where
  year : Int := 0
  month : Int := -1
  day : Int := -1
  hour : Int := 0
  min : Int := 0
  sec : Int := 0
  nsec : Int := 0
  z : Option Location := none
  zoneOffset : Int := -1
  deriving DecidableEq, Repr

/-- The function `parseNanoseconds` on a text `value` that starts with a period
or comma followed by a digit, `n` being the length of the fraction with its
mark: the nanoseconds the fraction denotes. -/
def parseNanoseconds (value : List Char) (n : Nat) : Option Int :=
  let n := if n > 10 then 10 else n
  match atoiDigits ((value.take n).drop 1) 0 with
  | some ns => some (ns * 10 ^ (10 - n))
  | none => none

/-- One field element of `Parse`: the fields with the element read and the rest
of the text, or `none` when the text does not fit or is out of range. -/
def parseStd (f : Fields) (value : List Char) : Std → Option (Fields × List Char)
  | .stdLongYear =>
    if value.length < 4 || !((value.head?.map isDigitChar).getD false) then none
    else
      match atoiDigits (value.take 4) 0 with
      | some year => some ({ f with year := year }, value.drop 4)
      | none => none
  | .stdZeroMonth =>
    match getnum value true with
    | some (month, value) =>
      if month ≤ 0 || 12 < month then none else some ({ f with month := month }, value)
    | none => none
  | .stdZeroDay =>
    match getnum value true with
    | some (day, value) => some ({ f with day := day }, value)
    | none => none
  | .stdHour =>
    match getnum value false with
    | some (hour, value) =>
      if hour < 0 || 24 ≤ hour then none else some ({ f with hour := hour }, value)
    | none => none
  | .stdZeroMinute =>
    match getnum value true with
    | some (min, value) =>
      if min < 0 || 60 ≤ min then none else some ({ f with min := min }, value)
    | none => none
  | .stdZeroSecond =>
    match getnum value true with
    | some (sec, value) =>
      if sec < 0 || 60 ≤ sec then none
      else
        match value with
        | c0 :: c1 :: _ =>
          if (c0 = '.' || c0 = ',') && isDigitChar c1 then
            let n := 1 + ((value.drop 1).takeWhile isDigitChar).length
            match parseNanoseconds value n with
            | some nsec => some ({ f with sec := sec, nsec := nsec }, value.drop n)
            | none => none
          else some ({ f with sec := sec }, value)
        | _ => some ({ f with sec := sec }, value)
    | none => none
  | .stdISO8601ColonTZ =>
    match value with
    | 'Z' :: rest => some ({ f with z := some UTC }, rest)
    | sign :: h0 :: h1 :: colon :: m0 :: m1 :: rest =>
      if colon ≠ ':' then none
      else
        match getnum [h0, h1] true, getnum [m0, m1] true with
        | some (hr, _), some (mm, _) =>
          if hr > 24 || mm > 60 then none
          else if sign = '+' then some ({ f with zoneOffset := (hr * 60 + mm) * 60 }, rest)
          else if sign = '-' then some ({ f with zoneOffset := -((hr * 60 + mm) * 60) }, rest)
          else none
        | _, _ => none
    | _ => none

/-- The loop of `parse` over the field elements of the layout. -/
def parseChunks : List (String × Std) → Fields → List Char → Option (Fields × List Char)
  | [], f, value => some (f, value)
  | (pfx, std) :: rest, f, value =>
    match skip value pfx.toList (pfx.length + 1) with
    | none => none
    | some value =>
      match parseStd f value std with
      | none => none
      | some (f, value) => parseChunks rest f value

/-- The error value of a failed `Parse`, a `*time.ParseError`. -/
def parseError : Error := .lib "parsing time"

/-- The function `parse` behind `time.Parse` and `time.ParseInLocation`: the
fields are read along the layout, no text may be left over, the day must exist
in its month, and the instant is built by `Date` in the zone the text names,
else in `defaultLocation`. A zone given as an offset is the location `local`
when that has this offset at the instant, and a fixed zone otherwise. -/
def parse (layout : Layout) (value : String) (defaultLocation loc : Location) :
    Time × Option Error :=
  match parseChunks layout.chunks {} value.toList with
  | none => (Time.zero, some parseError)
  | some (f, rest) =>
    match skip rest layout.tail.toList (layout.tail.length + 1) with
    | none => (Time.zero, some parseError)
    | some rest =>
      if rest.length ≠ 0 then (Time.zero, some parseError)
      else
        let month := if f.month < 0 then 1 else f.month
        let day := if f.day < 0 then 1 else f.day
        if day < 1 || day > daysIn month f.year then (Time.zero, some parseError)
        else
          match f.z with
          | some z => (Date f.year month day f.hour f.min f.sec f.nsec z, none)
          | none =>
            if f.zoneOffset ≠ -1 then
              let t := Date f.year month day f.hour f.min f.sec f.nsec UTC
              let t := { t with sec := t.sec - f.zoneOffset }
              if (loc.lookup t.sec).1 = f.zoneOffset then ({ t with loc := loc }, none)
              else ({ t with loc := FixedZone "" f.zoneOffset }, none)
            else (Date f.year month day f.hour f.min f.sec f.nsec defaultLocation, none)

/-- The function `time.ParseInLocation`. -/
def ParseInLocation (layout : Layout) (value : String) (loc : Location) : Time × Option Error :=
  parse layout value loc loc

/-- The function `time.Parse`, `loc` being the location `time.Local`. -/
def Parse (layout : Layout) (value : String) (loc : Location) : Time × Option Error :=
  parse layout value UTC loc

end time

/-! ## Go `strconv` and `html` -/

/-- The width of the type `int` in bits: the service is built for 64-bit
platforms. -/
def intSize : Nat := 64

/-- The function `strconv.Atoi`: an optional sign and decimal digits. A text
that is no number gives 0 and a syntax error, a number out of the range of
`int` gives the nearest bound and a range error. -/
def Atoi (s : String) : Int × Option Error :=
  let (neg, ds) : Bool × List Char :=
    match s.toList with
    | '+' :: rest => (false, rest)
    | '-' :: rest => (true, rest)
    | rest => (false, rest)
  if ds.isEmpty then (0, some (.lib "strconv.Atoi: invalid syntax"))
  else
    match time.atoiDigits ds 0 with
    | none => (0, some (.lib "strconv.Atoi: invalid syntax"))
    | some n =>
      if !neg && n ≥ 2 ^ (intSize - 1) then
        (2 ^ (intSize - 1) - 1, some (.lib "strconv.Atoi: value out of range"))
      else if neg && n > 2 ^ (intSize - 1) then
        (-(2 ^ (intSize - 1)), some (.lib "strconv.Atoi: value out of range"))
      else (if neg then -n else n, none)

/-- The function `html.UnescapeString`: a text without an ampersand is returned
as it is, and in any other text the entities are replaced, which is the work of
`entities`, the entity table of the package `html` not being part of this
development. -/
def UnescapeString (entities : String → String) (s : String) : String :=
  if s.toList.contains '&' then entities s else s

/-! ## `internal/outage`: the data model -/

namespace outage

structure Location where
  Id : String
  TitleGe : String
  TitleLat : String
  Lat : String
  Lng : String
  deriving DecidableEq, Repr

structure WaterGovGe where
  Start : time.Time
  End : time.Time
  AffectedCustomers : Int
  Location : outage.Location
  AddressesGe : List String
  deriving DecidableEq, Repr

/-- The zero value `outage.WaterGovGe{}`. -/
def WaterGovGe.zero : WaterGovGe :=
  ⟨time.Time.zero, time.Time.zero, 0, ⟨"", "", "", "", ""⟩, []⟩

end outage

/-! ## `internal/parser` -/

namespace parser

open regexp

def errMapNotFound : Error := .parser "map not found"
def errNoRespBody : Error := .parser "response body not found"
def errNoOutageStart : Error := .parser "outage start not found"
def errNoOutageEnd : Error := .parser "outage end not found"
def errNoOutageAffected : Error := .parser "outage no affected customers"
def errNoAddresses : Error := .parser "no addresses"

/-- The type `waterGovGePoint`: a marker of the map page. -/
structure waterGovGePoint where
  Problem : Bool
  Id : String
  Title : String
  Lat : String
  Lng : String
  deriving DecidableEq, Repr

/-- What a GET request of the HTTP client comes to: the request cannot be
built, the client fails, the response has no body, the body cannot be read to
its end, or the body is read. -/
inductive Response where
  | badRequest (err : Error)
  | failed (err : Error)
  | noBody
  | unread (err : Error)
  | body (rawBody : String)
  deriving DecidableEq, Repr

/-- The type `WaterGovGe` of the parser. The client `c` is what it answers to a
GET of an address; `entities` and `unmarshal` stand for the entity table of
`html` and for `json.Unmarshal` into a slice of points. The layout, the
patterns and the two addresses, which `NewWaterGovGe` fixes, are the
definitions below; the logger has no part in the results. -/
structure WaterGovGe where
  c : String → Response
  location : time.Location
  entities : String → String
  unmarshal : String → List waterGovGePoint × Option Error

def mapURI : String := "http://water.gov.ge/page/map"

/-- The address `fmt.Sprintf(problemURITpl, id)`, the template being
`http://water.gov.ge/page/problem/%s`. -/
def problemURI (id : String) : String := "http://water.gov.ge/page/problem/" ++ id

/-- The layout `outageDateTimeLayout`, which is `02/01/2006 15:04:05`. -/
def outageDateTimeLayout : time.Layout := time.outageLayout

/-- The literal runes of a pattern. -/
def rxLits (s : String) : Regexp := s.toList.map RxItem.lit

/-- The pattern `var markers = (\[.+\]);`. -/
def mapMarkersRx : Regexp :=
  rxLits "var markers = " ++ [.groupOpen, .lit '[', .plus .dot, .lit ']', .groupClose, .lit ';']

/-- The pattern
`<div>\s+წყალმომარაგების\s+შეწყვეტის\s+დრო:\s+([\d/\s:]+)\s+</div>`. -/
def outageStartLabelRx : Regexp :=
  rxLits "<div>" ++ [.plus .space] ++ rxLits "წყალმომარაგების" ++ [.plus .space] ++
  rxLits "შეწყვეტის" ++ [.plus .space] ++ rxLits "დრო:" ++ [.plus .space] ++
  [.groupOpen, .plus .dateTime, .groupClose, .plus .space] ++ rxLits "</div>"

/-- The pattern
`<div>\s+წყალმომარაგების\s+აღდგენის\s+დრო:\s+([\d/\s:]+)\s+</div>`. -/
def outageEndLabelRx : Regexp :=
  rxLits "<div>" ++ [.plus .space] ++ rxLits "წყალმომარაგების" ++ [.plus .space] ++
  rxLits "აღდგენის" ++ [.plus .space] ++ rxLits "დრო:" ++ [.plus .space] ++
  [.groupOpen, .plus .dateTime, .groupClose, .plus .space] ++ rxLits "</div>"

/-- The pattern `<div>\sგამორთული\sაბონენტების\sრაოდენობა:\s(\d+)\s</div>`. -/
def outageAffectedCustomersRx : Regexp :=
  rxLits "<div>" ++ [.one .space] ++ rxLits "გამორთული" ++ [.one .space] ++
  rxLits "აბონენტების" ++ [.one .space] ++ rxLits "რაოდენობა:" ++ [.one .space] ++
  [.groupOpen, .plus .digit, .groupClose, .one .space] ++ rxLits "</div>"

/-- The pattern `<div>\s*([^<>]+)\s*</div>`. -/
def outageAddressesRx : Regexp :=
  rxLits "<div>" ++ [.star .space, .groupOpen, .plus .notAngle, .groupClose, .star .space] ++
  rxLits "</div>"

/-- The `table` map literal of `translit`: Georgian letter to Latin sequence. -/
def translitTable : Char → Option String
  | 'ა' => some "a" | 'ბ' => some "b" | 'გ' => some "g"
  | 'დ' => some "d" | 'ე' => some "e" | 'ვ' => some "v"
  | 'ზ' => some "z" | 'თ' => some "t" | 'ი' => some "i"
  | 'კ' => some "k'" | 'ლ' => some "l" | 'მ' => some "m"
  | 'ნ' => some "n" | 'ო' => some "o" | 'პ' => some "p'"
  | 'ჟ' => some "zh" | 'რ' => some "r" | 'ს' => some "s"
  | 'ტ' => some "t'" | 'უ' => some "u" | 'ფ' => some "p"
  | 'ქ' => some "k" | 'ღ' => some "gh" | 'ყ' => some "q"
  | 'შ' => some "sh" | 'ჩ' => some "ch" | 'ც' => some "ts"
  | 'ძ' => some "dz" | 'წ' => some "ts'" | 'ჭ' => some "ch'"
  | 'ხ' => some "kh" | 'ჯ' => some "j" | 'ჰ' => some "h"
  | _ => none

/-- The body of the loop of `translit`: `tr, ok := table[r]; if !ok { tr = " " }`,
then `[]rune(tr)`. -/
def translitRune (r : Char) : List Char :=
  match translitTable r with
  | some tr => tr.toList
  | none => " ".toList

/-- The function `translit`: the result slice starts empty and every rune of the
input appends the runes of its image. -/
def translit (ge : String) : String :=
  String.mk (ge.toList.foldl (fun result r => result ++ translitRune r) [])

/-- The method `fetchRawHTMLFile`. -/
def fetchRawHTMLFile (w : WaterGovGe) (addr : String) : String × Option Error :=
  let handleErr := fun (err : Error) =>
    (("", some (Error.wrap ("fetch html file at " ++ addr) err)) : String × Option Error)
  match w.c addr with
  | .badRequest err => handleErr err
  | .failed err => handleErr err
  | .noBody => handleErr errNoRespBody
  | .unread err => handleErr err
  | .body rawBody => (rawBody, none)

/-- The method `parseMapMarkers`. -/
def parseMapMarkers (w : WaterGovGe) (htmlFile : String) :
    List waterGovGePoint × Option Error :=
  let handleErr := fun (err : Error) =>
    (([], some (Error.wrap ("parse map markers [" ++ htmlFile ++ "]") err)) :
      List waterGovGePoint × Option Error)
  let submatch := FindSubmatch mapMarkersRx htmlFile
  if submatch.length < 2 then handleErr errMapNotFound
  else
    match w.unmarshal (submatch.getD 1 "") with
    | (_, some err) => handleErr err
    | (points, none) => (points, none)

/-- The loop of `parseProblem` over the address blocks after the third. -/
def addressesOf (w : WaterGovGe) (rawAddressesBytes : List (List String)) : List String :=
  rawAddressesBytes.foldl
    (fun addresses rawAddr =>
      if rawAddr.length < 2 then addresses
      else addresses ++ [TrimSpace (UnescapeString w.entities (rawAddr.getD 1 ""))])
    []

/-- The method `parseProblem`. Every guard tests the length of
`rawOutageStartBytes`, as the source does. -/
def parseProblem (w : WaterGovGe) (location : outage.Location) (rawProblemHTML : String) :
    GoResult (outage.WaterGovGe × Option Error) :=
  let handleErr := fun (err : Error) =>
    (GoResult.ret (outage.WaterGovGe.zero,
      some (Error.wrap ("parse problem [" ++ rawProblemHTML ++ "]") err)) :
      GoResult (outage.WaterGovGe × Option Error))
  let rawOutageStartBytes := FindSubmatch outageStartLabelRx rawProblemHTML
  if rawOutageStartBytes.length < 2 then handleErr errNoOutageStart
  else
    (sliceIndex rawOutageStartBytes 1).bind fun start1 =>
    let rawOutageStart := TrimSpace start1
    let rawOutageEndBytes := FindSubmatch outageEndLabelRx rawProblemHTML
    if rawOutageStartBytes.length < 2 then handleErr errNoOutageEnd
    else
      (sliceIndex rawOutageEndBytes 1).bind fun end1 =>
      let rawOutageEnd := TrimSpace end1
      match time.ParseInLocation outageDateTimeLayout rawOutageStart w.location with
      | (_, some err) => handleErr err
      | (outageStart, none) =>
        match time.ParseInLocation outageDateTimeLayout rawOutageEnd w.location with
        | (_, some err) => handleErr err
        | (outageEnd, none) =>
          let rawOutageAffectedCustomersBytes :=
            FindSubmatch outageAffectedCustomersRx rawProblemHTML
          if rawOutageStartBytes.length < 2 then handleErr errNoOutageStart
          else
            (sliceIndex rawOutageAffectedCustomersBytes 1).bind fun affected1 =>
            let outageAffectedCustomersStr := TrimSpace affected1
            match Atoi outageAffectedCustomersStr with
            | (_, some err) => handleErr err
            | (outageAffectedCustomers, none) =>
              let rawAddressesBytes := FindAllSubmatch outageAddressesRx rawProblemHTML
              if rawAddressesBytes.length < 4 then handleErr errNoAddresses
              else
                let rawAddressesBytes := rawAddressesBytes.drop 3
                let addresses := addressesOf w rawAddressesBytes
                .ret ({ Start := outageStart, End := outageEnd,
                        AffectedCustomers := outageAffectedCustomers,
                        AddressesGe := addresses, Location := location }, none)

/-- The location `parseProblems` builds from a marker. -/
def locationOf (point : waterGovGePoint) : outage.Location :=
  let shortTitleGe := (CutSuffix (TrimSpace point.Title) " სერვის ცენტრი").1
  { Id := TrimSpace point.Id,
    TitleGe := shortTitleGe,
    TitleLat := translit shortTitleGe,
    Lat := TrimSpace point.Lat,
    Lng := TrimSpace point.Lng }

/-- The loop of `parseProblems`, `problems` being the records appended so far. -/
def parseProblemsLoop (w : WaterGovGe) :
    List waterGovGePoint → List outage.WaterGovGe →
    GoResult (List outage.WaterGovGe × Option Error)
  | [], problems => .ret (problems, none)
  | point :: points, problems =>
    if !point.Problem then parseProblemsLoop w points problems
    else
      match fetchRawHTMLFile w (problemURI point.Id) with
      | (_, some err) => .ret ([], some (Error.wrap "parse problems" err))
      | (rawProblemHTML, none) =>
        match parseProblem w (locationOf point) rawProblemHTML with
        | .panic msg => .panic msg
        | .ret (_, some err) => .ret ([], some (Error.wrap "parse problems" err))
        | .ret (problem, none) => parseProblemsLoop w points (problems ++ [problem])

/-- The method `parseProblems`. -/
def parseProblems (w : WaterGovGe) (points : List waterGovGePoint) :
    GoResult (List outage.WaterGovGe × Option Error) :=
  parseProblemsLoop w points []

/-- The method `GetOutages` of the parser. -/
def GetOutages (w : WaterGovGe) : GoResult (List outage.WaterGovGe × Option Error) :=
  let handleErr := fun (err : Error) =>
    (GoResult.ret ([], some (Error.wrap "get outages" err)) :
      GoResult (List outage.WaterGovGe × Option Error))
  match fetchRawHTMLFile w mapURI with
  | (_, some err) => handleErr err
  | (rawMapHTML, none) =>
    match parseMapMarkers w rawMapHTML with
    | (_, some err) => handleErr err
    | (points, none) =>
      match parseProblems w points with
      | .panic msg => .panic msg
      | .ret (_, some err) => handleErr err
      | .ret (problems, none) => .ret (problems, none)

end parser

/-! ## `internal/repo`: the store

The table of the store service is a list of items. A batch the service accepts
is applied whole, a put replacing the item with the same key; the limits of
the service (the size of a batch, the shape of keys and sets) and its
availability are the parameter `reject` of the client. A query answers the
items of a partition whose sort key is above the bound, the strings being
compared as the service does, by their UTF-8 bytes, which is the order of the
code points; the answer is in increasing order of the sort key. -/

namespace repo

/-- The attribute values the repository writes: a string, a number in its
decimal text, a set of strings. -/
inductive AttributeValue where
  | S (Value : String)
  | N (Value : String)
  | SS (Value : List String)
  deriving DecidableEq, Repr

/-- An item, the type `map[string]types.AttributeValue`. -/
abbrev Item := List (String × AttributeValue)

def Item.attr (item : Item) (name : String) : Option AttributeValue :=
  (item.find? (fun kv => kv.1 == name)).map (fun kv => kv.2)

def waterGovGeTableName : String := "water.gov.ge"
def waterGovGePartitionKey : String := "locationTitle"
def waterGovGeSortKey : String := "outageEnd"

/-- The type `DynamoWaterGovGe`. The clock `now` is the time it returns at the
call; `reject` is the error the service answers a batch with, if any, and
`queryError` the error it answers a query with, if any; `loc` is the location
`time.Local` of the process, which `time.Parse` consults. -/
structure DynamoWaterGovGe where
  now : time.Time
  reject : List Item → Option Error
  queryError : Option Error
  loc : time.Location

/-- The function `lo.Uniq`: the elements in the order of their first
occurrence. -/
def Uniq (collection : List String) : List String :=
  collection.foldl (fun result item => if result.contains item then result else result ++ [item])
    []

/-- The function `strconv.Itoa`. -/
def Itoa (i : Int) : String :=
  if i < 0 then String.mk ('-' :: Nat.toDigits 10 i.natAbs)
  else String.mk (Nat.toDigits 10 i.natAbs)

/-- The item `SaveOutages` puts for a record. The sort key, named `outageEnd`, is
given the start of the outage, and so is `outageStart`; the end of the outage
is in no attribute. -/
def itemOf (outage : outage.WaterGovGe) : Item :=
  let addressesGe := Uniq outage.AddressesGe
  [ (waterGovGePartitionKey, .S outage.Location.TitleLat),
    (waterGovGeSortKey, .S (outage.Start.Format time.RFC3339)),
    ("titleGe", .S outage.Location.TitleGe),
    ("outageStart", .S (outage.Start.Format time.RFC3339)),
    ("affectedCustomers", .N (Itoa outage.AffectedCustomers)),
    ("locationLat", .S outage.Location.Lat),
    ("locationLng", .S outage.Location.Lng),
    ("addressesGe", .SS addressesGe),
    ("locationId", .S outage.Location.Id) ]

/-- The two items have the key of the table in common. -/
def sameKey (a b : Item) : Bool :=
  a.attr waterGovGePartitionKey == b.attr waterGovGePartitionKey &&
  a.attr waterGovGeSortKey == b.attr waterGovGeSortKey

/-- A put request on the table: the item takes the place of the item with its
key. -/
def putItem (table : List Item) (item : Item) : List Item :=
  table.filter (fun old => !sameKey old item) ++ [item]

/-- The method `SaveOutages`: the table after the call and the error. -/
def SaveOutages (w : DynamoWaterGovGe) (table : List Item) (outages : List outage.WaterGovGe) :
    List Item × Option Error :=
  let handleErr := fun (err : Error) =>
    ((table, some (Error.wrap "save water outages" err)) : List Item × Option Error)
  let requestItems := outages.foldl (fun requests outage => requests ++ [itemOf outage]) []
  match w.reject requestItems with
  | some err => handleErr err
  | none => (requestItems.foldl putItem table, none)

/-- The order of the service on strings: by bytes, `a` before `b`. -/
def bytesLess : List Char → List Char → Bool
  | [], [] => false
  | [], _ :: _ => true
  | _ :: _, [] => false
  | a :: as, b :: bs => a.toNat < b.toNat || (a == b && bytesLess as bs)

/-- The key condition of `GetOutages` on an item: the partition key equals
`titleLat` and the sort key is greater than `now`. -/
def keyCondition (titleLat now : String) (item : Item) : Bool :=
  match item.attr waterGovGePartitionKey, item.attr waterGovGeSortKey with
  | some (.S pk), some (.S sk) => pk == titleLat && bytesLess now.toList sk.toList
  | _, _ => false

/-- The sort key of an item as text. -/
def sortKeyOf (item : Item) : List Char :=
  match item.attr waterGovGeSortKey with
  | some (.S sk) => sk.toList
  | _ => []

/-- Insertion of an item into an answer in increasing order of the sort key. -/
def insertByKey (item : Item) : List Item → List Item
  | [] => [item]
  | x :: xs =>
    if bytesLess (sortKeyOf x) (sortKeyOf item) then x :: insertByKey item xs
    else item :: x :: xs

/-- The names of the projection of `GetOutages`. -/
def projection : List String :=
  [waterGovGePartitionKey, waterGovGeSortKey, "addressesGe", "affectedCustomers",
   "locationLat", "locationLng", "outageStart", "titleGe", "locationId"]

/-- The answer of the service to the query of `GetOutages`. -/
def Query (table : List Item) (titleLat now : String) : List Item :=
  ((table.filter (keyCondition titleLat now)).foldr insertByKey []).map
    (fun item => item.filter (fun kv => projection.contains kv.1))

/-- A string field of the struct `GetOutages` decodes into: the zero value when
the attribute is absent, the text of a string or of a number, and no value for
a set. -/
def stringField (item : Item) (name : String) : Option String :=
  match item.attr name with
  | none => some ""
  | some (.S v) => some v
  | some (.N v) => some v
  | some (.SS _) => none

/-- A `time.Time` field: the attribute is a string in the layout RFC 3339. -/
def timeField (w : DynamoWaterGovGe) (item : Item) (name : String) : Option time.Time :=
  match item.attr name with
  | none => some time.Time.zero
  | some (.S v) =>
    match time.Parse time.RFC3339 v w.loc with
    | (t, none) => some t
    | (_, some _) => none
  | some _ => none

/-- An `int` field: the attribute is a number. -/
def intField (item : Item) (name : String) : Option Int :=
  match item.attr name with
  | none => some 0
  | some (.N v) =>
    match Atoi v with
    | (n, none) => some n
    | (_, some _) => none
  | some _ => none

/-- A `[]string` field: the attribute is a set of strings. -/
def stringsField (item : Item) (name : String) : Option (List String) :=
  match item.attr name with
  | none => some []
  | some (.SS v) => some v
  | some _ => none

/-- The decoding of one item by `attributevalue.UnmarshalListOfMaps` and the
record `GetOutages` makes of it: the field `OutageEnd`, which becomes `End`, is
the attribute `outageEnd`, the sort key. -/
def recordOf (w : DynamoWaterGovGe) (item : Item) : Option outage.WaterGovGe :=
  match stringField item "locationId", stringField item waterGovGePartitionKey,
    timeField w item waterGovGeSortKey, stringsField item "addressesGe",
    intField item "affectedCustomers", stringField item "locationLat",
    stringField item "locationLng", timeField w item "outageStart",
    stringField item "titleGe" with
  | some LocationId, some LocationTitle, some OutageEnd, some AddressesGe,
    some AffectedCustomers, some LocationLat, some LocationLng, some OutageStart,
    some TitleGe =>
    some { Start := OutageStart, End := OutageEnd, AffectedCustomers := AffectedCustomers,
           Location := { Id := LocationId, TitleGe := TitleGe, TitleLat := LocationTitle,
                         Lat := LocationLat, Lng := LocationLng },
           AddressesGe := AddressesGe }
  | _, _, _, _, _, _, _, _, _ => none

/-- The decoding of the answer: every item, or the error of the first that
does not decode. -/
def recordsOf (w : DynamoWaterGovGe) : List Item → Option (List outage.WaterGovGe)
  | [] => some []
  | item :: items =>
    match recordOf w item, recordsOf w items with
    | some r, some rs => some (r :: rs)
    | _, _ => none

/-- The method `GetOutages` of the repository. -/
def GetOutages (w : DynamoWaterGovGe) (table : List Item) (titleLat : String) :
    List outage.WaterGovGe × Option Error :=
  let handleErr := fun (err : Error) =>
    (([], some (Error.wrap "get water outages" err)) : List outage.WaterGovGe × Option Error)
  let now := w.now.Format time.RFC3339
  match w.queryError with
  | some err => handleErr err
  | none =>
    match recordsOf w (Query table titleLat now) with
    | none => handleErr (.lib "unmarshal")
    | some result => (result, none)

end repo

/-! ## `internal/plugin` -/

namespace plugin

/-- The method `GetWaterOutages` of the plugin, which hands the call to the
parser. -/
def GetWaterOutages (waterGovGeParser : parser.WaterGovGe) :
    GoResult (List outage.WaterGovGe × Option Error) :=
  parser.GetOutages waterGovGeParser

end plugin

/-! ## `internal/outage`: the service

The two collaborators of the service are interfaces: here they are functions
on a state `σ` of the world outside (the network, the store), and the calls
the service makes on them are recorded. The loop of `StartRefreshingData`, the
goroutine of `NewService`, the context and the ticker run concurrently: they
are a machine that takes one step for one event. The channel of the ticker
holds at most one tick, and `Stop` sends no further tick and does not close
the channel. -/

namespace outage

/-- A call of the service on its plugin or on its repository. -/
inductive Call where
  | GetWaterOutages
  | SaveOutages (outages : List WaterGovGe)
  deriving DecidableEq, Repr

/-- A record of the logger. -/
inductive LogEntry where
  | info (msg : String)
  | error (msg : String) (err : Error)
  deriving DecidableEq, Repr

/-- The type `Service`: the plugin and the repository as they act on the world.
The ticker is part of the state of the machine below. -/
structure Service (σ : Type) where
  plugin : σ → GoResult ((List WaterGovGe × Option Error) × σ)
  repo : σ → List WaterGovGe → GoResult (Option Error × σ)

/-- The method `refreshWaterOutages`: what it returns with the world after it,
and the calls it has made. -/
def Service.refreshWaterOutages {σ : Type} (s : Service σ) (world : σ) :
    GoResult (Option Error × σ) × List Call :=
  let handleErr := fun (err : Error) => Error.wrap "refresh water outages" err
  match s.plugin world with
  | .panic msg => (.panic msg, [.GetWaterOutages])
  | .ret ((_, some err), world) => (.ret (some (handleErr err), world), [.GetWaterOutages])
  | .ret ((waterOutages, none), world) =>
    match s.repo world waterOutages with
    | .panic msg => (.panic msg, [.GetWaterOutages, .SaveOutages waterOutages])
    | .ret (some err, world) =>
      (.ret (some (handleErr err), world), [.GetWaterOutages, .SaveOutages waterOutages])
    | .ret (none, world) => (.ret (none, world), [.GetWaterOutages, .SaveOutages waterOutages])

/-- Where the loop of `StartRefreshingData` stands: at the `select`, in
`refreshWaterOutages`, at the receive from the channel of the ticker, after its
`return`, or ended by a panic. -/
inductive Pc where
  | checking
  | running
  | waiting
  | stopped
  | crashed
  deriving DecidableEq, Repr

/-- The state of the machine: the place of the loop, whether the context is
cancelled, whether `ticker.Stop` has been called, whether a tick is in the
channel, the world, the calls made, and the log. -/
structure Loop (σ : Type) where
  pc : Pc
  cancelled : Bool
  tickerStopped : Bool
  tick : Bool
  world : σ
  calls : List Call
  log : List LogEntry
  deriving DecidableEq, Repr

/-- The state in which `StartRefreshingData` is called: the context is live, the
ticker of `NewService` runs and has sent nothing. -/
def Loop.init {σ : Type} (world : σ) : Loop σ :=
  ⟨.checking, false, false, false, world, [], []⟩

/-- What the loop logs after `refreshWaterOutages`. -/
def logOf : Option Error → List LogEntry
  | some err => [.error "refresh water outages" err]
  | none => []

/-- The method `StartRefreshingData`, one step of its loop: the `select` returns
when the context is done and goes to the cycle otherwise; the cycle logs its
error and goes to the receive; the receive takes a tick that is in the channel
and goes to the `select`. `none` when the loop has no step to take. -/
def Service.StartRefreshingData {σ : Type} (s : Service σ) (l : Loop σ) : Option (Loop σ) :=
  match l.pc with
  | .checking =>
    if l.cancelled then
      some { l with pc := .stopped, log := l.log ++ [.info "stopping periodic refresh"] }
    else some { l with pc := .running }
  | .running =>
    match s.refreshWaterOutages l.world with
    | (.ret (err, world), calls) =>
      some { l with pc := .waiting, world := world, calls := l.calls ++ calls,
                    log := l.log ++ logOf err }
    | (.panic _, calls) => some { l with pc := .crashed, calls := l.calls ++ calls }
  | .waiting => if l.tick then some { l with pc := .checking, tick := false } else none
  | .stopped => none
  | .crashed => none

/-- The goroutine of `NewService`, `<-ctx.Done(); ticker.Stop()`: its one step,
once the context is cancelled. -/
def NewService {σ : Type} (l : Loop σ) : Option (Loop σ) :=
  if l.cancelled && !l.tickerStopped then some { l with tickerStopped := true } else none

/-- An event: a step of the loop, the cancellation of the context, the step
of the goroutine of `NewService`, a tick of the ticker. -/
inductive Event where
  | loop
  | cancel
  | stop
  | tick
  deriving DecidableEq, Repr

/-- One step of the machine for an event, `none` when the event cannot take
place: a context is cancelled once, and a ticker sends only while it is not
stopped and its channel is empty. -/
def Service.step {σ : Type} (s : Service σ) (l : Loop σ) : Event → Option (Loop σ)
  | .loop => s.StartRefreshingData l
  | .cancel => if l.cancelled then none else some { l with cancelled := true }
  | .stop => NewService l
  | .tick => if !l.tickerStopped && !l.tick then some { l with tick := true } else none

/-- The events of a schedule in turn, `none` when one of them cannot take
place. -/
def Service.run {σ : Type} (s : Service σ) : List Event → Loop σ → Option (Loop σ)
  | [], l => some l
  | ev :: evs, l =>
    match s.step l ev with
    | some l1 => s.run evs l1
    | none => none

end outage

/-! ## Sample pages, markers and a parser over them -/

namespace sample

/-- A fixed zone four hours east of UTC, the offset the zone Asia/Tbilisi has
had since 2005. -/
def tbilisi : time.Location := time.FixedZone "Asia/Tbilisi" 14400

/-- An incident page: start, end and count blocks, then two address blocks. -/
def problemPage : String :=
  "<html><div class=\"x\"><b>1</b></div>" ++
  "<div>\n წყალმომარაგების შეწყვეტის დრო: 08/09/2023 19:20:00\n</div>" ++
  "<div>\n წყალმომარაგების აღდგენის დრო: 11/09/2023 19:20:00\n</div>" ++
  "<div> გამორთული აბონენტების რაოდენობა: 186 </div>" ++
  "<div> ოზურგეთი I შეს. </div><div>ოზურგეთი ქ. N 15</div></html>"

/-- An incident page with the start block and no end block. -/
def pageWithoutEnd : String :=
  "<html><div>\n წყალმომარაგების შეწყვეტის დრო: 08/09/2023 19:20:00\n</div>" ++
  "<div> გამორთული აბონენტების რაოდენობა: 186 </div>" ++
  "<div>a</div><div>b</div></html>"

/-- An incident page with start and end blocks and no count block. -/
def pageWithoutCount : String :=
  "<html><div>\n წყალმომარაგების შეწყვეტის დრო: 08/09/2023 19:20:00\n</div>" ++
  "<div>\n წყალმომარაგების აღდგენის დრო: 11/09/2023 19:20:00\n</div>" ++
  "<div>a</div><div>b</div></html>"

/-- An incident page whose count is 2^63, one more than the largest `int`. -/
def pageWithHugeCount : String :=
  "<html><div>\n წყალმომარაგების შეწყვეტის დრო: 08/09/2023 19:20:00\n</div>" ++
  "<div>\n წყალმომარაგების აღდგენის დრო: 11/09/2023 19:20:00\n</div>" ++
  "<div> გამორთული აბონენტების რაოდენობა: 9223372036854775808 </div>" ++
  "<div>a</div></html>"

/-- An incident page with end, count and address blocks and no start block. -/
def pageWithoutStart : String :=
  "<html><div>\n წყალმომარაგების აღდგენის დრო: 11/09/2023 19:20:00\n</div>" ++
  "<div> გამორთული აბონენტების რაოდენობა: 186 </div>" ++
  "<div>a</div><div>b</div></html>"

/-- An incident page with start, end and count blocks and no other generic
block. -/
def pageWithoutAddresses : String :=
  "<html><div class=\"x\"><b>1</b></div>" ++
  "<div>\n წყალმომარაგების შეწყვეტის დრო: 08/09/2023 19:20:00\n</div>" ++
  "<div>\n წყალმომარაგების აღდგენის დრო: 11/09/2023 19:20:00\n</div>" ++
  "<div> გამორთული აბონენტების რაოდენობა: 186 </div></html>"

def location : outage.Location := ⟨"1", "", "whatever", "30.31", "42.42"⟩

/-- The record of `problemPage` at `location`. -/
def problem : outage.WaterGovGe :=
  { Start := time.Date 2023 9 8 19 20 0 0 tbilisi,
    End := time.Date 2023 9 11 19 20 0 0 tbilisi,
    AffectedCustomers := 186,
    Location := location,
    AddressesGe := ["ოზურგეთი I შეს.", "ოზურგეთი ქ. N 15"] }

/-- Three markers: a problem, a marker without problem, a problem. -/
def points : List parser.waterGovGePoint :=
  [⟨true, " 7", "ოზურგეთი სერვის ცენტრი", "41.92", "42.00"⟩,
   ⟨false, "8", "ქუთაისი სერვის ცენტრი", "42.26", "42.70"⟩,
   ⟨true, "9", "ბათუმი", "41.64", "41.63"⟩]

def mapPage : String := "<script>var markers = [\x7b\"problem\":true\x7d];</script>"

/-- A client that serves the map page and the incident page of the markers 7
and 9, and fails on every other address. -/
def client (addr : String) : parser.Response :=
  if addr = parser.mapURI then .body mapPage
  else if addr = parser.problemURI " 7" then .body problemPage
  else if addr = parser.problemURI "9" then .body problemPage
  else .failed (.lib "no such host")

/-- A client that serves the incident page of marker 7 only. -/
def clientOfSeven (addr : String) : parser.Response :=
  if addr = parser.mapURI then .body mapPage
  else if addr = parser.problemURI " 7" then .body problemPage
  else .failed (.lib "no such host")

/-- A parser over `client`; the pages have no entity, and the markers of the
map page are taken to decode to `points`. -/
def w : parser.WaterGovGe :=
  { c := client, location := tbilisi, entities := fun s => s,
    unmarshal := fun _ => (points, none) }

def wOfSeven : parser.WaterGovGe := { w with c := clientOfSeven }

/-- A client that serves the incident page of marker 7 and, for marker 9, the
page without end block. -/
def clientNineWithoutEnd (addr : String) : parser.Response :=
  if addr = parser.mapURI then .body mapPage
  else if addr = parser.problemURI " 7" then .body problemPage
  else if addr = parser.problemURI "9" then .body pageWithoutEnd
  else .failed (.lib "no such host")

def wNineWithoutEnd : parser.WaterGovGe := { w with c := clientNineWithoutEnd }

/-- A repository whose service accepts every batch and answers every query,
in a process whose local zone is UTC, at the given time of the clock. -/
def dynamo (now : time.Time) : repo.DynamoWaterGovGe :=
  { now := now, reject := fun _ => none, queryError := none, loc := time.UTC }

/-- The record `problem` with the transliterated title of its marker. -/
def stored : outage.WaterGovGe :=
  { problem with Location := { problem.Location with TitleGe := "ოზურგეთი", TitleLat := "ozurgeti" } }

/-- 10:00:00 on 8 September 2023 in the zone of the parser, before the start
of `stored`. -/
def morning : time.Time := time.Date 2023 9 8 10 0 0 0 tbilisi

/-- 16:00:00 UTC on 8 September 2023, which is 20:00:00 in the zone of the
parser, after the start of `stored`. -/
def eveningUTC : time.Time := time.Date 2023 9 8 16 0 0 0 time.UTC

/-- The records of the two problem markers of `points`. -/
def records : List outage.WaterGovGe :=
  [{ problem with Location := ⟨"7", "ოზურგეთი", "ozurgeti", "41.92", "42.00"⟩ },
   { problem with Location := ⟨"9", "ბათუმი", "batumi", "41.64", "41.63"⟩ }]

/-- A service over the parser `w` and the repository `dynamo morning`, the
world being the table of the store. -/
def service : outage.Service (List repo.Item) :=
  { plugin := fun table =>
      match plugin.GetWaterOutages w with
      | .ret r => .ret (r, table)
      | .panic msg => .panic msg,
    repo := fun table outages =>
      .ret ((repo.SaveOutages (dynamo morning) table outages).2,
            (repo.SaveOutages (dynamo morning) table outages).1) }

/-- The same service over the parser `wOfSeven`, whose fetch for the second
problem marker fails. -/
def serviceOfSeven : outage.Service (List repo.Item) :=
  { service with
    plugin := fun table =>
      match plugin.GetWaterOutages wOfSeven with
      | .ret r => .ret (r, table)
      | .panic msg => .panic msg }

end sample

/-! ## Predicates of the statements -/

/-- The detail page of the marker is fetched and `parseProblem` returns the
record `problem` for it without error. -/
def fetchedAndParsed (w : parser.WaterGovGe) (point : parser.waterGovGePoint)
    (problem : outage.WaterGovGe) : Prop :=
  ∃ rawProblemHTML,
    parser.fetchRawHTMLFile w (parser.problemURI point.Id) = (rawProblemHTML, none) ∧
    parser.parseProblem w (parser.locationOf point) rawProblemHTML = .ret (problem, none)

/-- Fetching the detail page of the marker returns the error `err`, or the page
is fetched and `parseProblem` returns the error `err` for it. -/
def fetchOrParseFails (w : parser.WaterGovGe) (point : parser.waterGovGePoint)
    (err : Error) : Prop :=
  (∃ rawProblemHTML,
    parser.fetchRawHTMLFile w (parser.problemURI point.Id) = (rawProblemHTML, some err)) ∨
  (∃ rawProblemHTML problem,
    parser.fetchRawHTMLFile w (parser.problemURI point.Id) = (rawProblemHTML, none) ∧
    parser.parseProblem w (parser.locationOf point) rawProblemHTML = .ret (problem, some err))

/-- The text `DD/MM/YYYY HH:MM:SS` of a civil time. -/
def civilText (day month year hour min sec : Nat) : String :=
  String.mk (time.appendInt day 2 ++ ['/'] ++ time.appendInt month 2 ++ ['/'] ++
    time.appendInt year 4 ++ [' '] ++ time.appendInt hour 2 ++ [':'] ++
    time.appendInt min 2 ++ [':'] ++ time.appendInt sec 2)

/-- The civil time exists: a year of four digits, a month of the year, a day of
the month, and a time of the day. -/
def validCivil (day month year hour min sec : Nat) : Prop :=
  year ≤ 9999 ∧ 1 ≤ month ∧ month ≤ 12 ∧ 1 ≤ day ∧
  (day : Int) ≤ time.daysIn month year ∧ hour < 24 ∧ min < 60 ∧ sec < 60

/-- The item of a pattern is no bound of the capture group. -/
def regexp.RxItem.noGroup : regexp.RxItem → Bool
  | .groupOpen => false
  | .groupClose => false
  | _ => true

/-- The number of the day `year`-`month`-`day`, counted from 1 January of
year 1, as `time.Date` computes it. -/
def dayNumber (year month day : Int) : Int :=
  time.daysSinceYearOne year + time.daysBefore (month - 1) +
    (if time.isLeap year && month ≥ 3 then 1 else 0) + (day - 1)

/-- The date exists: a month of the year and a day of that month. -/
def validDate (year month day : Int) : Prop :=
  1 ≤ month ∧ month ≤ 12 ∧ 1 ≤ day ∧
  day ≤ time.daysBefore month - time.daysBefore (month - 1) +
    (if time.isLeap year = true ∧ month = 2 then 1 else 0)

/-- The civil reading `a` is before `b`: by year, then month, day, hour, minute
and second. -/
def civilLess (a b : time.Civil) : Prop :=
  a.year < b.year ∨ (a.year = b.year ∧ (a.month < b.month ∨ (a.month = b.month ∧
    (a.day < b.day ∨ (a.day = b.day ∧ (a.hour < b.hour ∨ (a.hour = b.hour ∧
      (a.min < b.min ∨ (a.min = b.min ∧ a.sec < b.sec)))))))))

/-- The number a text of decimal digits denotes. -/
def decimalValue (s : String) : Nat :=
  s.toList.foldl (fun acc c => acc * 10 + (c.toNat - 48)) 0

/-! ## Theorems -/

theorem foldl_append_flatten {α β : Type} (f : α → List β) (xs : List α) (acc : List β) :
    xs.foldl (fun result r => result ++ f r) acc = acc ++ (xs.map f).flatten := by
  induction xs generalizing acc with
  | nil => simp
  | cons x xs ih => simp [ih, List.append_assoc]

theorem translit_toList (ge : String) :
    (parser.translit ge).toList = (ge.toList.map parser.translitRune).flatten := by
  simp [parser.translit, foldl_append_flatten]

theorem translitRune_length (r : Char) :
    1 ≤ (parser.translitRune r).length ∧ (parser.translitRune r).length ≤ 3 := by
  have ht : ∀ tr, parser.translitTable r = some tr →
      1 ≤ tr.toList.length ∧ tr.toList.length ≤ 3 := by
    intro tr h
    unfold parser.translitTable at h
    split at h <;> first
      | (cases h; done)
      | (cases h; decide)
  unfold parser.translitRune
  split
  · exact ht _ (by assumption)
  · decide

theorem flatten_length_bounds {α β : Type} (f : α → List β) (k : Nat)
    (hf : ∀ a, 1 ≤ (f a).length ∧ (f a).length ≤ k) (xs : List α) :
    xs.length ≤ (xs.map f).flatten.length ∧ (xs.map f).flatten.length ≤ k * xs.length := by
  induction xs with
  | nil => simp
  | cons x xs ih =>
    have hx := hf x
    simp only [List.map_cons, List.flatten_cons, List.length_append, List.length_cons]
    constructor
    · omega
    · rw [Nat.mul_succ]; omega

/-- C9: `translit` is a total function of its input alone; its result is the
concatenation, in order, of the images of the runes of the input; a rune that
the table lacks has the one-space image, so an input of such runes only yields
as many spaces as it has runes. -/
theorem translit_concat_images (ge unmapped : String)
    (h : ∀ r ∈ unmapped.toList, parser.translitTable r = none) :
    (parser.translit ge).toList = (ge.toList.map parser.translitRune).flatten ∧
    (∀ r, parser.translitTable r = none → parser.translitRune r = [' ']) ∧
    (∀ r tr, parser.translitTable r = some tr → parser.translitRune r = tr.toList) ∧
    parser.translit unmapped = String.mk (List.replicate unmapped.length ' ') := by
  refine ⟨translit_toList ge, ?_, ?_, ?_⟩
  · intro r hr
    simp [parser.translitRune, hr]
  · intro r tr hr
    simp [parser.translitRune, hr]
  · have key : ∀ (xs : List Char), (∀ r ∈ xs, parser.translitTable r = none) →
        (xs.map parser.translitRune).flatten = List.replicate xs.length ' ' := by
      intro xs
      induction xs with
      | nil => intro _; rfl
      | cons x xs ih =>
        intro hx
        have h1 : parser.translitRune x = [' '] := by
          simp [parser.translitRune, hx x (List.mem_cons_self _ _)]
        have h2 := ih (fun r hr => hx r (List.mem_cons_of_mem _ hr))
        simp [h1, h2, List.replicate_succ]
    have h3 := translit_toList unmapped
    rw [key unmapped.toList h] at h3
    exact String.ext h3

/-- C9, at an input: a Georgian word with a blank and a digit, and an input of
unmapped runes only. -/
theorem translit_concat_images_witness :
    (∀ r ∈ ("12 w" : String).toList, parser.translitTable r = none) ∧
    parser.translit "წყალი 1" = "ts'qali  " ∧
    parser.translit "12 w" = "    " := by
  have hu : ∀ r ∈ ("12 w" : String).toList, parser.translitTable r = none := by decide
  refine ⟨hu, by decide, ?_⟩
  exact (translit_concat_images "წყალი 1" "12 w" hu).2.2.2

/-- C10, the claim as stated fails: the letter `წ` alone has an image of three
runes, more than twice the length of the input. -/
theorem translit_two_runes_counterexample :
    ¬ ((parser.translit "წ").length ≤ 2 * ("წ" : String).length) := by
  decide

/-- C10, amended: every rune has an image of one, two or three runes, so the
result of `translit` has at least as many runes as the input and at most three
times as many. -/
theorem translit_length_bounds (s : String) :
    (∀ r, 1 ≤ (parser.translitRune r).length ∧ (parser.translitRune r).length ≤ 3) ∧
    s.length ≤ (parser.translit s).length ∧ (parser.translit s).length ≤ 3 * s.length := by
  refine ⟨translitRune_length, ?_⟩
  have h := flatten_length_bounds parser.translitRune 3 translitRune_length s.toList
  have e : (parser.translit s).length = ((s.toList.map parser.translitRune).flatten).length := by
    rw [← translit_toList]; rfl
  rw [e]
  exact h

/-! ### The matcher: what a match consumes and what its group holds -/

theorem rxStar_some (cls : regexp.RxClass) (k : Nat → List Char → Option regexp.RxMatch) :
    ∀ (s : List Char) (pos : Nat) (m : regexp.RxMatch),
    regexp.rxStar cls k pos s = some m →
    ∃ a s1, s = a ++ s1 ∧ (∀ x ∈ a, cls.test x = true) ∧ k (pos + a.length) s1 = some m := by
  intro s
  induction s with
  | nil =>
    intro pos m h
    exact ⟨[], [], rfl, by simp, by simpa [regexp.rxStar] using h⟩
  | cons c s ih =>
    intro pos m h
    unfold regexp.rxStar at h
    by_cases hc : cls.test c = true
    · simp only [hc, if_true] at h
      cases hr : regexp.rxStar cls k (pos + 1) s with
      | some m1 =>
        rw [hr] at h
        simp only [Option.some.injEq] at h
        subst h
        obtain ⟨a, s1, hs, ha, hk⟩ := ih (pos + 1) m1 hr
        refine ⟨c :: a, s1, by simp [hs], ?_, ?_⟩
        · intro x hx
          rcases List.mem_cons.mp hx with rfl | hx
          · exact hc
          · exact ha x hx
        · simpa [Nat.add_assoc, Nat.add_comm 1] using hk
      | none =>
        rw [hr] at h
        exact ⟨[], c :: s, rfl, by simp, by simpa using h⟩
    · simp only [hc, Bool.false_eq_true, if_false] at h
      exact ⟨[], c :: s, rfl, by simp, by simpa using h⟩

theorem rxRun_prefix : ∀ (pre : regexp.Regexp), pre.all regexp.RxItem.noGroup = true →
    ∀ (rest : regexp.Regexp) (cs ce pos : Nat) (s : List Char) (m : regexp.RxMatch),
    regexp.rxRun (pre ++ rest) cs ce pos s = some m →
    ∃ a s1, s = a ++ s1 ∧ regexp.rxRun rest cs ce (pos + a.length) s1 = some m := by
  intro pre
  induction pre with
  | nil =>
    intro _ rest cs ce pos s m h
    exact ⟨[], s, rfl, by simpa using h⟩
  | cons item pre ih =>
    intro hng rest cs ce pos s m h
    simp only [List.all_cons, Bool.and_eq_true] at hng
    obtain ⟨hi, hpre⟩ := hng
    cases item with
    | lit c =>
      simp only [List.cons_append, regexp.rxRun] at h
      cases s with
      | nil => simp at h
      | cons d s1 =>
        simp only at h
        split at h
        · obtain ⟨a, s2, hs, hr⟩ := ih hpre rest cs ce (pos + 1) s1 m h
          exact ⟨d :: a, s2, by simp [hs], by simpa [Nat.add_assoc, Nat.add_comm 1] using hr⟩
        · simp at h
    | one cls =>
      simp only [List.cons_append, regexp.rxRun] at h
      cases s with
      | nil => simp at h
      | cons d s1 =>
        simp only at h
        split at h
        · obtain ⟨a, s2, hs, hr⟩ := ih hpre rest cs ce (pos + 1) s1 m h
          exact ⟨d :: a, s2, by simp [hs], by simpa [Nat.add_assoc, Nat.add_comm 1] using hr⟩
        · simp at h
    | star cls =>
      simp only [List.cons_append, regexp.rxRun] at h
      obtain ⟨a, s1, hs, _, hk⟩ := rxStar_some cls _ s pos m h
      obtain ⟨b, s2, hs2, hr⟩ := ih hpre rest cs ce (pos + a.length) s1 m hk
      exact ⟨a ++ b, s2, by simp [hs, hs2], by simpa [Nat.add_assoc] using hr⟩
    | plus cls =>
      simp only [List.cons_append, regexp.rxRun] at h
      cases s with
      | nil => simp at h
      | cons d s1 =>
        simp only at h
        split at h
        · obtain ⟨a, s2, hs, _, hk⟩ := rxStar_some cls _ s1 (pos + 1) m h
          obtain ⟨b, s3, hs3, hr⟩ := ih hpre rest cs ce (pos + 1 + a.length) s2 m hk
          refine ⟨d :: (a ++ b), s3, by simp [hs, hs3], ?_⟩
          simpa [Nat.add_assoc, Nat.add_comm 1, Nat.add_left_comm] using hr
        · simp at h
    | groupOpen => simp [regexp.RxItem.noGroup] at hi
    | groupClose => simp [regexp.RxItem.noGroup] at hi

theorem rxRun_caps (post : regexp.Regexp) (hng : post.all regexp.RxItem.noGroup = true)
    (cs ce pos : Nat) (s : List Char) (m : regexp.RxMatch)
    (h : regexp.rxRun post cs ce pos s = some m) : m.capStart = cs ∧ m.capStop = ce := by
  have h1 : regexp.rxRun (post ++ []) cs ce pos s = some m := by simpa using h
  obtain ⟨a, s1, _, hr⟩ := rxRun_prefix post hng [] cs ce pos s m h1
  simp only [regexp.rxRun, Option.some.injEq] at hr
  subst hr
  exact ⟨rfl, rfl⟩

/-- A match of a pattern `pre (cls+) post` without another group: the text
splits into what `pre` consumes and a non-empty run of the class, which the
group bounds. -/
theorem rxRun_group (pre post : regexp.Regexp) (cls : regexp.RxClass)
    (hpre : pre.all regexp.RxItem.noGroup = true) (hpost : post.all regexp.RxItem.noGroup = true)
    (cs ce pos : Nat) (s : List Char) (m : regexp.RxMatch)
    (h : regexp.rxRun (pre ++ (.groupOpen :: .plus cls :: .groupClose :: post)) cs ce pos s
      = some m) :
    ∃ a b s1, s = a ++ b ++ s1 ∧ b ≠ [] ∧ (∀ x ∈ b, cls.test x = true) ∧
      m.capStart = pos + a.length ∧ m.capStop = pos + a.length + b.length := by
  obtain ⟨a, s1, hs, hr⟩ := rxRun_prefix pre hpre _ cs ce pos s m h
  simp only [regexp.rxRun] at hr
  cases s1 with
  | nil => simp at hr
  | cons d s2 =>
    simp only at hr
    split at hr
    · rename_i hd
      obtain ⟨b, s3, hs3, hb, hk⟩ := rxStar_some cls _ s2 _ m hr
      obtain ⟨h1, h2⟩ := rxRun_caps post hpost _ _ _ _ m hk
      refine ⟨a, d :: b, s3, by simp [hs, hs3], by simp, ?_, h1, ?_⟩
      · intro x hx
        rcases List.mem_cons.mp hx with rfl | hx
        · exact hd
        · exact hb x hx
      · rw [h2]; simp [Nat.add_assoc, Nat.add_comm 1]
    · simp at hr

theorem rxFind_some (re : regexp.Regexp) : ∀ (s : List Char) (pos start : Nat)
    (m : regexp.RxMatch), regexp.rxFind re pos s = some (start, m) →
    ∃ skipped s1, s = skipped ++ s1 ∧ start = pos + skipped.length ∧
      regexp.rxRun re 0 0 start s1 = some m := by
  intro s
  induction s with
  | nil =>
    intro pos start m h
    simp only [regexp.rxFind, Option.map_eq_some'] at h
    obtain ⟨m1, hm, he⟩ := h
    cases he
    exact ⟨[], [], rfl, rfl, hm⟩
  | cons c s ih =>
    intro pos start m h
    unfold regexp.rxFind at h
    cases hr : regexp.rxRun re 0 0 pos (c :: s) with
    | some m1 =>
      rw [hr] at h
      cases h
      exact ⟨[], c :: s, rfl, rfl, hr⟩
    | none =>
      rw [hr] at h
      obtain ⟨skipped, s1, hs, hst, hm⟩ := ih (pos + 1) start m h
      exact ⟨c :: skipped, s1, by simp [hs], by simp [hst, Nat.add_assoc, Nat.add_comm 1], hm⟩

/-- The group of a match found in a text, for a pattern `pre (cls+) post`: the
runes between its bounds are a non-empty run of the class. -/
theorem group_slice (pre post : regexp.Regexp) (cls : regexp.RxClass)
    (hpre : pre.all regexp.RxItem.noGroup = true) (hpost : post.all regexp.RxItem.noGroup = true)
    (doc skipped s1 : List Char) (pos start : Nat) (m : regexp.RxMatch)
    (hs : doc = skipped ++ s1) (hst : start = pos + skipped.length) (hpos : pos = 0)
    (hm : regexp.rxRun (pre ++ (.groupOpen :: .plus cls :: .groupClose :: post)) 0 0 start s1
      = some m) :
    (regexp.sliceRunes doc m.capStart m.capStop).toList ≠ [] ∧
    ∀ x ∈ (regexp.sliceRunes doc m.capStart m.capStop).toList, cls.test x = true := by
  subst hpos
  obtain ⟨a, b, s2, hs2, hb, hcls, hc1, hc2⟩ := rxRun_group pre post cls hpre hpost 0 0 start
    s1 m hm
  have hcap : (regexp.sliceRunes doc m.capStart m.capStop).toList = b := by
    simp only [regexp.sliceRunes, String.toList]
    rw [hs, hs2, hc1, hc2, hst]
    have e1 : 0 + skipped.length + a.length = (skipped ++ a).length := by simp
    have e2 : 0 + skipped.length + a.length + b.length - (skipped ++ a).length = b.length := by
      simp
    rw [e1] at e2 ⊢
    rw [e2]
    have e3 : skipped ++ (a ++ b ++ s2) = (skipped ++ a) ++ (b ++ s2) := by simp
    rw [e3, List.drop_left, List.take_left]
  rw [hcap]
  exact ⟨hb, hcls⟩

/-- The group of `FindSubmatch` for a pattern `pre (cls+) post`: a non-empty
text of the class. -/
theorem FindSubmatch_group (pre post : regexp.Regexp) (cls : regexp.RxClass)
    (hpre : pre.all regexp.RxItem.noGroup = true) (hpost : post.all regexp.RxItem.noGroup = true)
    (doc whole cap : String)
    (h : regexp.FindSubmatch (pre ++ (.groupOpen :: .plus cls :: .groupClose :: post)) doc
      = [whole, cap]) :
    cap.toList ≠ [] ∧ ∀ x ∈ cap.toList, cls.test x = true := by
  unfold regexp.FindSubmatch at h
  cases hf : regexp.rxFind (pre ++ (.groupOpen :: .plus cls :: .groupClose :: post)) 0 doc.toList
    with
  | none => rw [hf] at h; simp at h
  | some sm =>
    obtain ⟨start, m⟩ := sm
    rw [hf] at h
    simp only [regexp.submatchOf, List.cons.injEq, and_true] at h
    obtain ⟨skipped, s1, hs, hst, hm⟩ := rxFind_some _ _ 0 start m hf
    rw [← h.2]
    exact group_slice pre post cls hpre hpost doc.toList skipped s1 0 start m hs hst rfl hm

theorem rxFindAll_mem (re : regexp.Regexp) : ∀ (s : List Char) (skip pos : Nat)
    (sm : Nat × regexp.RxMatch), sm ∈ regexp.rxFindAll re skip pos s →
    ∃ skipped s1, s = skipped ++ s1 ∧ sm.1 = pos + skipped.length ∧
      regexp.rxRun re 0 0 sm.1 s1 = some sm.2 := by
  intro s
  induction s with
  | nil =>
    intro skip pos sm h
    simp [regexp.rxFindAll] at h
  | cons c s ih =>
    intro skip pos sm h
    have step : ∀ k, sm ∈ regexp.rxFindAll re k (pos + 1) s →
        ∃ skipped s1, c :: s = skipped ++ s1 ∧ sm.1 = pos + skipped.length ∧
          regexp.rxRun re 0 0 sm.1 s1 = some sm.2 := by
      intro k hk
      obtain ⟨skipped, s1, hs, hst, hm⟩ := ih k (pos + 1) sm hk
      exact ⟨c :: skipped, s1, by simp [hs],
        by simp [hst, Nat.add_assoc, Nat.add_comm 1], hm⟩
    cases skip with
    | succ k =>
      simp only [regexp.rxFindAll] at h
      exact step k h
    | zero =>
      simp only [regexp.rxFindAll] at h
      cases hr : regexp.rxRun re 0 0 pos (c :: s) with
      | some m =>
        rw [hr] at h
        simp only [List.mem_cons] at h
        rcases h with rfl | h
        · exact ⟨[], c :: s, rfl, rfl, hr⟩
        · exact step _ h
      | none =>
        rw [hr] at h
        exact step _ h

/-- The groups of `FindAllSubmatch` for a pattern `pre (cls+) post`: every match
is the pair of its text and its group, a non-empty text of the class. -/
theorem FindAllSubmatch_group (pre post : regexp.Regexp) (cls : regexp.RxClass)
    (hpre : pre.all regexp.RxItem.noGroup = true) (hpost : post.all regexp.RxItem.noGroup = true)
    (doc : String) (b : List String)
    (h : b ∈ regexp.FindAllSubmatch (pre ++ (.groupOpen :: .plus cls :: .groupClose :: post))
      doc) :
    ∃ whole content, b = [whole, content] ∧ content.toList ≠ [] ∧
      ∀ x ∈ content.toList, cls.test x = true := by
  simp only [regexp.FindAllSubmatch, List.mem_map] at h
  obtain ⟨sm, hsm, rfl⟩ := h
  obtain ⟨skipped, s1, hs, hst, hm⟩ := rxFindAll_mem _ _ 0 0 sm hsm
  exact ⟨_, _, rfl,
    group_slice pre post cls hpre hpost doc.toList skipped s1 0 sm.1 sm.2 hs hst rfl hm⟩

/-! ### `parseProblem`: the guards -/

theorem parseProblem_panics_without_end (w : parser.WaterGovGe) (location : outage.Location)
    (doc : String)
    (hs : 2 ≤ (regexp.FindSubmatch parser.outageStartLabelRx doc).length)
    (he : regexp.FindSubmatch parser.outageEndLabelRx doc = []) :
    parser.parseProblem w location doc = .panic "index out of range [1] with length 0" := by
  have hs1 : ¬ (regexp.FindSubmatch parser.outageStartLabelRx doc).length < 2 := by omega
  obtain ⟨start1, hstart⟩ : ∃ a, sliceIndex (regexp.FindSubmatch parser.outageStartLabelRx doc) 1
      = .ret a := by
    unfold sliceIndex
    cases hg : (regexp.FindSubmatch parser.outageStartLabelRx doc).get? 1 with
    | some a => exact ⟨a, rfl⟩
    | none => rw [List.get?_eq_none] at hg; omega
  unfold parser.parseProblem
  simp only [hs1, if_false, hstart, GoResult.bind, he]
  rfl

/-- C2: on the page `sample.pageWithoutEnd`, which has the start block and no end
block, `parseProblem` panics on the index `rawOutageEndBytes[1]`: it returns
neither the error `errNoOutageEnd` nor anything else. -/
theorem parseProblem_without_end_panics (w : parser.WaterGovGe) (location : outage.Location) :
    2 ≤ (regexp.FindSubmatch parser.outageStartLabelRx sample.pageWithoutEnd).length ∧
    regexp.FindSubmatch parser.outageEndLabelRx sample.pageWithoutEnd = [] ∧
    parser.parseProblem w location sample.pageWithoutEnd =
      .panic "index out of range [1] with length 0" := by
  have hs : 2 ≤ (regexp.FindSubmatch parser.outageStartLabelRx sample.pageWithoutEnd).length := by
    decide!
  have he : regexp.FindSubmatch parser.outageEndLabelRx sample.pageWithoutEnd = [] := by
    decide!
  exact ⟨hs, he, parseProblem_panics_without_end w location _ hs he⟩

theorem parse_error_location (layout : time.Layout) (value : String)
    (l1 l2 l3 l4 : time.Location) :
    (time.parse layout value l1 l2).2 = (time.parse layout value l3 l4).2 := by
  unfold time.parse
  cases time.parseChunks layout.chunks {} value.toList with
  | none => rfl
  | some p =>
    obtain ⟨f, rest⟩ := p
    simp only
    cases time.skip rest layout.tail.toList (layout.tail.length + 1) with
    | none => rfl
    | some rest1 =>
      simp only
      cases f.z with
      | some z => simp only
      | none => simp only; split_ifs <;> rfl

theorem sliceIndex_one {α : Type} (a b : α) : sliceIndex [a, b] 1 = .ret b := rfl

theorem parseProblem_panics_without_count (w : parser.WaterGovGe) (location : outage.Location)
    (doc ws capS we capE : String)
    (hs : regexp.FindSubmatch parser.outageStartLabelRx doc = [ws, capS])
    (he : regexp.FindSubmatch parser.outageEndLabelRx doc = [we, capE])
    (hps : (time.ParseInLocation parser.outageDateTimeLayout (TrimSpace capS) w.location).2 = none)
    (hpe : (time.ParseInLocation parser.outageDateTimeLayout (TrimSpace capE) w.location).2 = none)
    (hc : regexp.FindSubmatch parser.outageAffectedCustomersRx doc = []) :
    parser.parseProblem w location doc = .panic "index out of range [1] with length 0" := by
  unfold parser.parseProblem
  simp only [hs, he, hc, List.length_cons, List.length_nil, sliceIndex_one, GoResult.bind]
  cases hS : time.ParseInLocation parser.outageDateTimeLayout (TrimSpace capS) w.location with
  | mk t1 e1 =>
    cases hE : time.ParseInLocation parser.outageDateTimeLayout (TrimSpace capE) w.location with
    | mk t2 e2 =>
      rw [hS] at hps
      rw [hE] at hpe
      simp only at hps hpe
      subst hps
      subst hpe
      rfl

/-- C3: on the page `sample.pageWithoutCount`, whose start and end blocks are
present and parse and which has no count block, `parseProblem` panics on the
index `rawOutageAffectedCustomersBytes[1]` and returns no error. -/
theorem parseProblem_without_count_panics (w : parser.WaterGovGe) (location : outage.Location) :
    (regexp.FindSubmatch parser.outageStartLabelRx sample.pageWithoutCount).getD 1 "" =
      "08/09/2023 19:20:00" ∧
    (regexp.FindSubmatch parser.outageEndLabelRx sample.pageWithoutCount).getD 1 "" =
      "11/09/2023 19:20:00" ∧
    regexp.FindSubmatch parser.outageAffectedCustomersRx sample.pageWithoutCount = [] ∧
    parser.parseProblem w location sample.pageWithoutCount =
      .panic "index out of range [1] with length 0" := by
  have hc : regexp.FindSubmatch parser.outageAffectedCustomersRx sample.pageWithoutCount = [] := by
    decide!
  refine ⟨by decide!, by decide!, hc, ?_⟩
  refine parseProblem_panics_without_count w location sample.pageWithoutCount
    "<div>\n წყალმომარაგების შეწყვეტის დრო: 08/09/2023 19:20:00\n</div>" "08/09/2023 19:20:00"
    "<div>\n წყალმომარაგების აღდგენის დრო: 11/09/2023 19:20:00\n</div>" "11/09/2023 19:20:00"
    (by decide!) (by decide!) ?_ ?_ hc
  · unfold time.ParseInLocation
    rw [parse_error_location _ _ w.location w.location time.UTC time.UTC]
    decide!
  · unfold time.ParseInLocation
    rw [parse_error_location _ _ w.location w.location time.UTC time.UTC]
    decide!

/-! ### `parseProblem`: what a returned record holds -/

theorem parseProblem_ret (w : parser.WaterGovGe) (location : outage.Location) (doc : String)
    (problem : outage.WaterGovGe)
    (h : parser.parseProblem w location doc = .ret (problem, none)) :
    problem.Location = location ∧
    4 ≤ (regexp.FindAllSubmatch parser.outageAddressesRx doc).length ∧
    problem.AddressesGe =
      parser.addressesOf w ((regexp.FindAllSubmatch parser.outageAddressesRx doc).drop 3) := by
  unfold parser.parseProblem at h
  simp only [GoResult.bind] at h
  repeat' split at h
  all_goals first
    | (cases h; done)
    | (cases h; exact ⟨rfl, by omega, rfl⟩)

/-! ### `parseProblems` -/

theorem parseProblemsLoop_all_succeed (w : parser.WaterGovGe) :
    ∀ (points : List parser.waterGovGePoint) (acc : List outage.WaterGovGe),
    (∀ p ∈ points, p.Problem = true → ∃ problem, fetchedAndParsed w p problem) →
    ∃ problems, parser.parseProblemsLoop w points acc = .ret (acc ++ problems, none) ∧
      List.Forall₂ (fetchedAndParsed w) (points.filter (fun p => p.Problem)) problems := by
  intro points
  induction points with
  | nil =>
    intro acc _
    exact ⟨[], by simp [parser.parseProblemsLoop], by simp⟩
  | cons point points ih =>
    intro acc h
    have hrest : ∀ p ∈ points, p.Problem = true → ∃ problem, fetchedAndParsed w p problem :=
      fun p hp => h p (List.mem_cons_of_mem _ hp)
    cases hpb : point.Problem with
    | false =>
      obtain ⟨problems, h1, h2⟩ := ih acc hrest
      refine ⟨problems, ?_, ?_⟩
      · simp only [parser.parseProblemsLoop, hpb, Bool.not_false, if_true]
        exact h1
      · simpa [List.filter_cons, hpb] using h2
    | true =>
      obtain ⟨problem, raw, hf, hp⟩ := h point (List.mem_cons_self _ _) hpb
      obtain ⟨problems, h1, h2⟩ := ih (acc ++ [problem]) hrest
      refine ⟨problem :: problems, ?_, ?_⟩
      · simp only [parser.parseProblemsLoop, hpb, hf, hp]
        simpa using h1
      · simp only [List.filter_cons, hpb, if_true]
        exact List.Forall₂.cons ⟨raw, hf, hp⟩ h2

theorem parseProblemsLoop_error_nil (w : parser.WaterGovGe) :
    ∀ (points : List parser.waterGovGePoint) (acc problems : List outage.WaterGovGe)
      (err : Error),
    parser.parseProblemsLoop w points acc = .ret (problems, some err) → problems = [] := by
  intro points
  induction points with
  | nil =>
    intro acc problems err h
    simp [parser.parseProblemsLoop] at h
  | cons point points ih =>
    intro acc problems err h
    unfold parser.parseProblemsLoop at h
    repeat' split at h
    all_goals first
      | exact ih _ _ _ h
      | (cases h <;> rfl)

theorem parseProblemsLoop_first_failure (w : parser.WaterGovGe)
    (point : parser.waterGovGePoint) (post : List parser.waterGovGePoint) (err : Error)
    (hp : point.Problem = true) (hfail : fetchOrParseFails w point err) :
    ∀ (pre : List parser.waterGovGePoint) (acc : List outage.WaterGovGe),
    (∀ p ∈ pre, p.Problem = true → ∃ problem, fetchedAndParsed w p problem) →
    parser.parseProblemsLoop w (pre ++ point :: post) acc =
      .ret ([], some (Error.wrap "parse problems" err)) := by
  intro pre
  induction pre with
  | nil =>
    intro acc _
    rcases hfail with ⟨raw, hf⟩ | ⟨raw, problem, hf, hpp⟩
    · simp [parser.parseProblemsLoop, hp, hf]
    · simp [parser.parseProblemsLoop, hp, hf, hpp]
  | cons q pre ih =>
    intro acc h
    have hrest : ∀ p ∈ pre, p.Problem = true → ∃ problem, fetchedAndParsed w p problem :=
      fun p hp => h p (List.mem_cons_of_mem _ hp)
    cases hqb : q.Problem with
    | false =>
      simp only [List.cons_append, parser.parseProblemsLoop, hqb, Bool.not_false, if_true]
      exact ih acc hrest
    | true =>
      obtain ⟨problem, raw, hf, hpp⟩ := h q (List.mem_cons_self _ _) hqb
      simp only [List.cons_append, parser.parseProblemsLoop, hqb, hf, hpp]
      simpa using ih (acc ++ [problem]) hrest

theorem map_location_of_forall₂ (w : parser.WaterGovGe) :
    ∀ (points : List parser.waterGovGePoint) (problems : List outage.WaterGovGe),
    List.Forall₂ (fetchedAndParsed w) points problems →
    problems.map (fun r => r.Location) = points.map parser.locationOf := by
  intro points problems h
  induction h with
  | nil => rfl
  | cons hab _ ih =>
    obtain ⟨raw, _, hp⟩ := hab
    simp only [List.map_cons, ih, (parseProblem_ret w _ raw _ hp).1]

/-- C1: when the detail page of every problem marker is fetched and parsed
without error, `parseProblems` returns, without error, one record for each
marker with `Problem = true` and none for the others, in the order of the
markers: the i-th record is the one `parseProblem` returns for the page of the
i-th problem marker, and its `Location.Id` is the trimmed `Id` of that marker.
`GetOutages` returns the same list when the map page is fetched and its markers
are these. -/
theorem parseProblems_one_record_per_problem (w : parser.WaterGovGe)
    (points : List parser.waterGovGePoint)
    (h : ∀ p ∈ points, p.Problem = true → ∃ problem, fetchedAndParsed w p problem) :
    ∃ problems, parser.parseProblems w points = .ret (problems, none) ∧
      List.Forall₂ (fetchedAndParsed w) (points.filter (fun p => p.Problem)) problems ∧
      problems.length = (points.filter (fun p => p.Problem)).length ∧
      problems.map (fun r => r.Location.Id) =
        (points.filter (fun p => p.Problem)).map (fun p => TrimSpace p.Id) ∧
      (∀ rawMapHTML, parser.fetchRawHTMLFile w parser.mapURI = (rawMapHTML, none) →
        parser.parseMapMarkers w rawMapHTML = (points, none) →
        parser.GetOutages w = .ret (problems, none)) := by
  obtain ⟨problems, h1, h2⟩ := parseProblemsLoop_all_succeed w points [] h
  have h1 : parser.parseProblems w points = .ret (problems, none) := by
    simpa [parser.parseProblems] using h1
  refine ⟨problems, h1, h2, h2.length_eq.symm, ?_, ?_⟩
  · have hl := map_location_of_forall₂ w _ _ h2
    have hm := congrArg (List.map (fun l : outage.Location => l.Id)) hl
    simpa [List.map_map, Function.comp_def, parser.locationOf] using hm
  · intro rawMapHTML hf hm
    simp only [parser.GetOutages, hf, hm, h1]

/-- C1, at the three markers of `sample.points`, of which the first and the third
are problems: two records, with the trimmed ids `7` and `9`, from `parseProblems`
and from `GetOutages`. -/
theorem parseProblems_one_record_per_problem_witness :
    ∃ problems, parser.parseProblems sample.w sample.points = .ret (problems, none) ∧
      problems.length = 2 ∧
      problems.map (fun r => r.Location.Id) = ["7", "9"] ∧
      parser.GetOutages sample.w = .ret (problems, none) := by
  have hyp : ∀ p ∈ sample.points, p.Problem = true →
      ∃ problem, fetchedAndParsed sample.w p problem := by
    intro p hp hpb
    simp only [sample.points, List.mem_cons, List.mem_singleton, List.not_mem_nil,
      or_false] at hp
    rcases hp with rfl | rfl | rfl
    · exact ⟨_, sample.problemPage, by decide!, rfl⟩
    · exact absurd hpb (by decide)
    · exact ⟨_, sample.problemPage, by decide!, rfl⟩
  obtain ⟨problems, h1, _, h3, h4, h5⟩ :=
    parseProblems_one_record_per_problem sample.w sample.points hyp
  refine ⟨problems, h1, ?_, ?_, ?_⟩
  · rw [h3]; decide
  · rw [h4]; decide
  · exact h5 sample.mapPage (by decide!) (by decide!)

/-- The returns of `parseProblems` on an error: when the markers before a problem
marker are fetched and parsed without error and fetching or parsing the detail
page of that marker returns an error, `parseProblems` returns the nil list and
that error wrapped, whatever markers follow, and `GetOutages` returns the nil
list too. Whenever `parseProblems` returns an error, the list it returns with
it is nil. A parse that panics returns no error and is not covered here. -/
theorem parseProblems_fail_fast (w : parser.WaterGovGe)
    (pre post : List parser.waterGovGePoint) (point : parser.waterGovGePoint) (err : Error)
    (hpre : ∀ p ∈ pre, p.Problem = true → ∃ problem, fetchedAndParsed w p problem)
    (hp : point.Problem = true) (hfail : fetchOrParseFails w point err) :
    parser.parseProblems w (pre ++ point :: post) =
      .ret ([], some (Error.wrap "parse problems" err)) ∧
    (∀ rawMapHTML, parser.fetchRawHTMLFile w parser.mapURI = (rawMapHTML, none) →
      parser.parseMapMarkers w rawMapHTML = (pre ++ point :: post, none) →
      parser.GetOutages w =
        .ret ([], some (Error.wrap "get outages" (Error.wrap "parse problems" err)))) ∧
    (∀ points problems err1,
      parser.parseProblems w points = .ret (problems, some err1) → problems = []) := by
  have h1 := parseProblemsLoop_first_failure w point post err hp hfail pre [] hpre
  refine ⟨h1, ?_, ?_⟩
  · intro rawMapHTML hf hm
    have h2 : parser.parseProblems w (pre ++ point :: post) =
        .ret ([], some (Error.wrap "parse problems" err)) := h1
    simp only [parser.GetOutages, hf, hm, h2]
  · intro points problems err1 h
    exact parseProblemsLoop_error_nil w points [] problems err1 h

/-- The returns of `parseProblems` on an error, at the markers of `sample.points`
with a client that serves the page of the first marker only: the first record
is parsed, the fetch for the third marker fails, and the result is the nil
list with the error. -/
theorem parseProblems_fail_fast_witness :
    parser.parseProblems sample.wOfSeven sample.points =
      .ret ([], some (Error.wrap "parse problems"
        (Error.wrap "fetch html file at http://water.gov.ge/page/problem/9"
          (Error.lib "no such host")))) := by
  have hpre : ∀ p ∈ sample.points.take 2, p.Problem = true →
      ∃ problem, fetchedAndParsed sample.wOfSeven p problem := by
    intro p hp hpb
    simp only [sample.points, List.take, List.mem_cons, List.mem_singleton,
      List.not_mem_nil, or_false] at hp
    rcases hp with rfl | rfl
    · exact ⟨_, sample.problemPage, by decide!, rfl⟩
    · exact absurd hpb (by decide)
  exact (parseProblems_fail_fast sample.wOfSeven (sample.points.take 2) []
    ⟨true, "9", "ბათუმი", "41.64", "41.63"⟩ _ hpre rfl
    (Or.inl ⟨"", by decide!⟩)).1

/-- C8: with the markers of `sample.points`, the page of the first problem marker
is fetched and parsed into a record, and the page of the second problem marker
is fetched and has no end block, so that parsing it fails by the panic of C2:
`parseProblems` panics, and so does `GetOutages`. Neither returns an error and
a nil list. -/
theorem parseProblems_panics_when_parse_panics :
    parser.fetchRawHTMLFile sample.wNineWithoutEnd (parser.problemURI " 7") =
      (sample.problemPage, none) ∧
    parser.parseProblem sample.wNineWithoutEnd
        (parser.locationOf ⟨true, " 7", "ოზურგეთი სერვის ცენტრი", "41.92", "42.00"⟩)
        sample.problemPage =
      .ret ({ sample.problem with
                Location := ⟨"7", "ოზურგეთი", "ozurgeti", "41.92", "42.00"⟩ }, none) ∧
    parser.fetchRawHTMLFile sample.wNineWithoutEnd (parser.problemURI "9") =
      (sample.pageWithoutEnd, none) ∧
    parser.parseProblem sample.wNineWithoutEnd
        (parser.locationOf ⟨true, "9", "ბათუმი", "41.64", "41.63"⟩) sample.pageWithoutEnd =
      .panic "index out of range [1] with length 0" ∧
    parser.parseProblems sample.wNineWithoutEnd sample.points =
      .panic "index out of range [1] with length 0" ∧
    parser.GetOutages sample.wNineWithoutEnd =
      .panic "index out of range [1] with length 0" := by
  decide!

/-! ### Reading a civil time -/

theorem isDigitChar_digitChar (d : Nat) (h : d < 10) :
    time.isDigitChar (time.digitChar d) = true := by
  interval_cases d <;> decide

theorem digitVal_digitChar (d : Nat) (h : d < 10) :
    time.digitVal (time.digitChar d) = (d : Int) := by
  interval_cases d <;> decide

theorem digitChar_ne_space (d : Nat) (h : d < 10) : time.digitChar d ≠ ' ' := by
  interval_cases d <;> decide

theorem appendInt_two (n : Nat) (h : n < 100) :
    time.appendInt (n : Int) 2 = [time.digitChar (n / 10), time.digitChar (n % 10)] := by
  have h0 : ¬ ((n : Int) < 0) := by omega
  simp [time.appendInt, h0, h]

theorem appendInt_four (n : Nat) (h : n < 10000) :
    time.appendInt (n : Int) 4 =
      [time.digitChar (n / 1000), time.digitChar (n / 100 % 10), time.digitChar (n / 10 % 10),
       time.digitChar (n % 10)] := by
  have h0 : ¬ ((n : Int) < 0) := by omega
  simp [time.appendInt, h0, h]

theorem getnum_two (n : Nat) (h : n < 100) (rest : List Char) (fixed : Bool) :
    time.getnum (time.digitChar (n / 10) :: time.digitChar (n % 10) :: rest) fixed =
      some ((n : Int), rest) := by
  have h1 : n / 10 < 10 := by omega
  have h2 : n % 10 < 10 := by omega
  simp only [time.getnum, isDigitChar_digitChar _ h1, isDigitChar_digitChar _ h2,
    digitVal_digitChar _ h1, digitVal_digitChar _ h2, Bool.not_true, Bool.false_eq_true,
    if_false]
  congr 2
  omega

theorem atoiDigits_four (n : Nat) (h : n < 10000) :
    time.atoiDigits [time.digitChar (n / 1000), time.digitChar (n / 100 % 10),
      time.digitChar (n / 10 % 10), time.digitChar (n % 10)] 0 = some (n : Int) := by
  have h1 : n / 1000 < 10 := by omega
  have h2 : n / 100 % 10 < 10 := by omega
  have h3 : n / 10 % 10 < 10 := by omega
  have h4 : n % 10 < 10 := by omega
  simp only [time.atoiDigits, isDigitChar_digitChar _ h1, isDigitChar_digitChar _ h2,
    isDigitChar_digitChar _ h3, isDigitChar_digitChar _ h4, digitVal_digitChar _ h1,
    digitVal_digitChar _ h2, digitVal_digitChar _ h3, digitVal_digitChar _ h4, if_true]
  congr 1
  omega

theorem cutspace_digit (d : Nat) (h : d < 10) (rest : List Char) :
    time.cutspace (time.digitChar d :: rest) = time.digitChar d :: rest := by
  have hne := digitChar_ne_space d h
  unfold time.cutspace
  split
  · rename_i heq
    simp only [List.cons.injEq] at heq
    exact absurd heq.1 hne
  · rfl

theorem skip_slash (rest : List Char) :
    time.skip ('/' :: rest) ("/" : String).toList (("/" : String).length + 1) = some rest := by
  simp [time.skip]

theorem skip_colon (rest : List Char) :
    time.skip (':' :: rest) (":" : String).toList ((":" : String).length + 1) = some rest := by
  simp [time.skip]

theorem skip_empty (value : List Char) :
    time.skip value ("" : String).toList (("" : String).length + 1) = some value := by
  simp [time.skip]

theorem skip_space_digit (d : Nat) (h : d < 10) (rest : List Char) :
    time.skip (' ' :: time.digitChar d :: rest) (" " : String).toList ((" " : String).length + 1)
      = some (time.digitChar d :: rest) := by
  have h1 : time.cutspace (' ' :: time.digitChar d :: rest) = time.digitChar d :: rest := by
    rw [time.cutspace]
    exact cutspace_digit d h rest
  have h2 : time.cutspace [' '] = [] := by simp [time.cutspace]
  simp [time.skip, h1, h2]

theorem parseStd_day (f : time.Fields) (n : Nat) (h : n < 100) (rest : List Char) :
    time.parseStd f (time.digitChar (n / 10) :: time.digitChar (n % 10) :: rest) .stdZeroDay =
      some ({ f with day := n }, rest) := by
  simp only [time.parseStd, getnum_two n h]

theorem parseStd_month (f : time.Fields) (n : Nat) (h1 : 1 ≤ n) (h2 : n ≤ 12)
    (rest : List Char) :
    time.parseStd f (time.digitChar (n / 10) :: time.digitChar (n % 10) :: rest) .stdZeroMonth =
      some ({ f with month := n }, rest) := by
  have hc : ((decide ((n : Int) ≤ 0) || decide (12 < (n : Int))) = true) ↔ False := by
    simp only [Bool.or_eq_true, decide_eq_true_eq, iff_false]; omega
  simp only [time.parseStd, getnum_two n (by omega : n < 100), hc, if_false]

theorem parseStd_hour (f : time.Fields) (n : Nat) (h : n < 24) (rest : List Char) :
    time.parseStd f (time.digitChar (n / 10) :: time.digitChar (n % 10) :: rest) .stdHour =
      some ({ f with hour := n }, rest) := by
  have hc : ((decide ((n : Int) < 0) || decide (24 ≤ (n : Int))) = true) ↔ False := by
    simp only [Bool.or_eq_true, decide_eq_true_eq, iff_false]; omega
  simp only [time.parseStd, getnum_two n (by omega : n < 100), hc, if_false]

theorem parseStd_minute (f : time.Fields) (n : Nat) (h : n < 60) (rest : List Char) :
    time.parseStd f (time.digitChar (n / 10) :: time.digitChar (n % 10) :: rest) .stdZeroMinute =
      some ({ f with min := n }, rest) := by
  have hc : ((decide ((n : Int) < 0) || decide (60 ≤ (n : Int))) = true) ↔ False := by
    simp only [Bool.or_eq_true, decide_eq_true_eq, iff_false]; omega
  simp only [time.parseStd, getnum_two n (by omega : n < 100), hc, if_false]

theorem parseStd_second_end (f : time.Fields) (n : Nat) (h : n < 60) :
    time.parseStd f [time.digitChar (n / 10), time.digitChar (n % 10)] .stdZeroSecond =
      some ({ f with sec := n }, []) := by
  have hc : ((decide ((n : Int) < 0) || decide (60 ≤ (n : Int))) = true) ↔ False := by
    simp only [Bool.or_eq_true, decide_eq_true_eq, iff_false]; omega
  simp only [time.parseStd, getnum_two n (by omega : n < 100), hc, if_false]

theorem parseStd_year (f : time.Fields) (n : Nat) (h : n < 10000) (rest : List Char) :
    time.parseStd f (time.digitChar (n / 1000) :: time.digitChar (n / 100 % 10) ::
      time.digitChar (n / 10 % 10) :: time.digitChar (n % 10) :: rest) .stdLongYear =
      some ({ f with year := n }, rest) := by
  have h1 : n / 1000 < 10 := by omega
  have hl : ¬ (rest.length + 1 + 1 + 1 + 1 < 4) := by omega
  simp only [time.parseStd, List.length_cons, hl, decide_False, List.head?_cons, Option.map_some',
    Option.getD_some, isDigitChar_digitChar _ h1, Bool.not_true, Bool.or_self,
    Bool.false_eq_true, if_false, List.take_succ_cons, List.take_zero, List.drop_succ_cons,
    List.drop_zero, atoiDigits_four n h]

theorem parseChunks_civilText (day month year hour min sec : Nat)
    (hv : validCivil day month year hour min sec) :
    time.parseChunks time.outageLayout.chunks {} (civilText day month year hour min sec).toList =
      some ({ year := year, month := month, day := day, hour := hour, min := min, sec := sec }, [])
    := by
  obtain ⟨hy, hm1, hm2, hd1, hd2, hh, hmi, hs⟩ := hv
  have hd3 : day < 100 := by
    have : time.daysIn month year ≤ 31 := by
      unfold time.daysIn time.daysBefore
      split
      · omega
      · interval_cases month <;> simp
    omega
  have hh10 : hour / 10 < 10 := by omega
  simp only [civilText, String.toList, appendInt_two day hd3, appendInt_two month (by omega),
    appendInt_four year (by omega), appendInt_two hour (by omega), appendInt_two min (by omega),
    appendInt_two sec (by omega), time.outageLayout, List.cons_append,
    List.nil_append, List.append_assoc]
  simp only [time.parseChunks, skip_empty, parseStd_day _ day hd3, skip_slash,
    parseStd_month _ month hm1 hm2, parseStd_year _ year (by omega),
    skip_space_digit _ hh10, parseStd_hour _ hour hh, skip_colon, parseStd_minute _ min hmi,
    parseStd_second_end _ sec hs]

theorem ParseInLocation_civilText (day month year hour min sec : Nat)
    (hv : validCivil day month year hour min sec) (loc : time.Location) :
    time.ParseInLocation time.outageLayout (civilText day month year hour min sec) loc =
      (time.Date year month day hour min sec 0 loc, none) := by
  have hc := parseChunks_civilText day month year hour min sec hv
  obtain ⟨hy, hm1, hm2, hd1, hd2, hh, hmi, hs⟩ := hv
  have hm : ¬ ((month : Int) < 0) := by omega
  have hd : ¬ ((day : Int) < 0) := by omega
  have hdd : ((decide ((day : Int) < 1) || decide ((day : Int) > time.daysIn month year)) = true)
      ↔ False := by
    simp only [Bool.or_eq_true, decide_eq_true_eq, iff_false]; omega
  unfold time.ParseInLocation time.parse
  rw [hc]
  have ht : time.outageLayout.tail = "" := rfl
  simp only [ht, skip_empty, List.length_nil, ne_eq, not_true_eq_false, if_false, hm, hd, hdd]

/-! ### Reading a count -/

theorem atoiDigits_digits : ∀ (ds : List Char) (acc : Nat),
    (∀ c ∈ ds, time.isDigitChar c = true) →
    time.atoiDigits ds (acc : Int) =
      some ((ds.foldl (fun acc c => acc * 10 + (c.toNat - 48)) acc : Nat) : Int) := by
  intro ds
  induction ds with
  | nil => intro acc _; rfl
  | cons c ds ih =>
    intro acc h
    have hc : time.isDigitChar c = true := h c (List.mem_cons_self _ _)
    have h48 : 48 ≤ c.toNat := by
      simp only [time.isDigitChar, Bool.and_eq_true, decide_eq_true_eq] at hc
      exact hc.1
    have hv : (acc : Int) * 10 + time.digitVal c = ((acc * 10 + (c.toNat - 48) : Nat) : Int) := by
      unfold time.digitVal
      omega
    simp only [time.atoiDigits, hc, if_true, List.foldl_cons, hv]
    exact ih _ (fun d hd => h d (List.mem_cons_of_mem _ hd))

theorem isSpace_digit (c : Char) (h : time.isDigitChar c = true) : isSpace c = false := by
  simp only [time.isDigitChar, Bool.and_eq_true, decide_eq_true_eq] at h
  have h1 : 48 ≤ c.toNat := h.1
  have h2 : c.toNat ≤ 57 := h.2
  simp only [isSpace, Bool.or_eq_false_iff, Bool.and_eq_false_iff, decide_eq_false_iff_not,
    beq_eq_false_iff_ne, ne_eq]
  omega

theorem dropWhile_isSpace_digits (ds : List Char) (h : ∀ c ∈ ds, time.isDigitChar c = true) :
    ds.dropWhile isSpace = ds := by
  cases ds with
  | nil => rfl
  | cons c ds =>
    have hc := isSpace_digit c (h c (List.mem_cons_self _ _))
    simp [List.dropWhile_cons, hc]

theorem TrimSpace_digits (s : String) (h : ∀ c ∈ s.toList, time.isDigitChar c = true) :
    TrimSpace s = s := by
  have h1 := dropWhile_isSpace_digits s.toList h
  have h2 := dropWhile_isSpace_digits s.toList.reverse
    (fun c hc => h c (List.mem_reverse.mp hc))
  unfold TrimSpace trimSpaceList
  rw [h1, h2, List.reverse_reverse]
  rfl

theorem Atoi_digits (s : String) (hne : s.toList ≠ [])
    (h : ∀ c ∈ s.toList, time.isDigitChar c = true)
    (hn : decimalValue s < 2 ^ (intSize - 1)) :
    Atoi s = (((decimalValue s : Nat) : Int), none) := by
  have hd := atoiDigits_digits s.toList 0 h
  have hsign : (match s.toList with
      | '+' :: rest => (false, rest)
      | '-' :: rest => (true, rest)
      | rest => ((false, rest) : Bool × List Char)) = (false, s.toList) := by
    split
    · rename_i rest heq
      have := h '+' (by rw [heq]; exact List.mem_cons_self _ _)
      exact absurd this (by decide)
    · rename_i rest heq
      have := h '-' (by rw [heq]; exact List.mem_cons_self _ _)
      exact absurd this (by decide)
    · rfl
  have he : s.toList.isEmpty = false := by
    cases hl : s.toList with
    | nil => exact absurd hl hne
    | cons _ _ => rfl
  have hlt : ¬ ((decimalValue s : Int) ≥ 2 ^ (intSize - 1)) := by
    have : ((decimalValue s : Nat) : Int) < ((2 ^ (intSize - 1) : Nat) : Int) := by
      exact_mod_cast hn
    push_cast at this
    omega
  unfold Atoi
  rw [hsign]
  simp only [he, Bool.false_eq_true, if_false]
  have hd1 : time.atoiDigits s.toList 0 = some ((decimalValue s : Nat) : Int) := by
    simpa [decimalValue] using hd
  rw [hd1]
  simp only [Bool.not_false, Bool.true_and, decide_eq_true_eq, hlt, if_false, Bool.false_and,
    Bool.false_eq_true]

/-! ### `parseProblem`: a well-formed page -/

theorem FindAllSubmatch_pair (re : regexp.Regexp) (doc : String) :
    ∀ b ∈ regexp.FindAllSubmatch re doc, ∃ whole content, b = [whole, content] := by
  intro b hb
  simp only [regexp.FindAllSubmatch, List.mem_map] at hb
  obtain ⟨sm, _, rfl⟩ := hb
  exact ⟨_, _, rfl⟩

theorem addressesOf_foldl (w : parser.WaterGovGe) : ∀ (bs : List (List String))
    (acc : List String), (∀ b ∈ bs, ∃ whole content, b = [whole, content]) →
    bs.foldl (fun addresses rawAddr =>
      if rawAddr.length < 2 then addresses
      else addresses ++ [TrimSpace (UnescapeString w.entities (rawAddr.getD 1 ""))]) acc =
    acc ++ bs.map (fun b => TrimSpace (UnescapeString w.entities (b.getD 1 ""))) := by
  intro bs
  induction bs with
  | nil => intro acc _; simp
  | cons b bs ih =>
    intro acc h
    obtain ⟨whole, content, rfl⟩ := h b (List.mem_cons_self _ _)
    simp only [List.foldl_cons, List.length_cons, List.length_nil, List.map_cons]
    rw [ih _ (fun b hb => h b (List.mem_cons_of_mem _ hb))]
    simp

theorem addressesOf_map (w : parser.WaterGovGe) (bs : List (List String))
    (h : ∀ b ∈ bs, ∃ whole content, b = [whole, content]) :
    parser.addressesOf w bs =
      bs.map (fun b => TrimSpace (UnescapeString w.entities (b.getD 1 ""))) := by
  unfold parser.addressesOf
  rw [addressesOf_foldl w bs [] h]
  simp

theorem addresses_group (doc : String) (b : List String)
    (h : b ∈ regexp.FindAllSubmatch parser.outageAddressesRx doc) :
    ∃ whole content, b = [whole, content] ∧ content.toList ≠ [] ∧
      ∀ x ∈ content.toList, x ≠ '<' ∧ x ≠ '>' := by
  have e : parser.outageAddressesRx =
      (parser.rxLits "<div>" ++ [regexp.RxItem.star .space]) ++
      (regexp.RxItem.groupOpen :: regexp.RxItem.plus .notAngle :: regexp.RxItem.groupClose ::
        (regexp.RxItem.star .space :: parser.rxLits "</div>")) := by decide
  rw [e] at h
  obtain ⟨whole, content, hb, hne, hcls⟩ :=
    FindAllSubmatch_group _ _ .notAngle (by decide) (by decide) doc b h
  refine ⟨whole, content, hb, hne, ?_⟩
  intro x hx
  have := hcls x hx
  simp only [regexp.RxClass.test, Bool.not_eq_true', Bool.or_eq_false_iff,
    beq_eq_false_iff_ne, ne_eq] at this
  exact this

/-- C7: when `parseProblem` returns a record for a page with `N` generic blocks
(the matches of `outageAddressesRx`, each a `<div>` fragment whose content is a
non-empty text without angle brackets), `N` is at least 4, the address list has
`N - 3` entries, and entry `k` is the content of block `k + 3` (counting both
from 0), with the entities decoded and then trimmed: the blocks are taken in
the order of the page and the first three are left out. -/
theorem parseProblem_addresses (w : parser.WaterGovGe) (location : outage.Location)
    (doc : String) (problem : outage.WaterGovGe) (N : Nat)
    (h : parser.parseProblem w location doc = .ret (problem, none))
    (hN : (regexp.FindAllSubmatch parser.outageAddressesRx doc).length = N) :
    4 ≤ N ∧ problem.AddressesGe.length = N - 3 ∧
    ∀ k, k < N - 3 → ∃ whole content,
      (regexp.FindAllSubmatch parser.outageAddressesRx doc)[k + 3]? = some [whole, content] ∧
      content.toList ≠ [] ∧ (∀ x ∈ content.toList, x ≠ '<' ∧ x ≠ '>') ∧
      problem.AddressesGe[k]? = some (TrimSpace (UnescapeString w.entities content)) := by
  obtain ⟨_, h4, ha⟩ := parseProblem_ret w location doc problem h
  have hpair : ∀ b ∈ (regexp.FindAllSubmatch parser.outageAddressesRx doc).drop 3,
      ∃ whole content, b = [whole, content] :=
    fun b hb => FindAllSubmatch_pair _ doc b (List.mem_of_mem_drop hb)
  rw [addressesOf_map w _ hpair] at ha
  subst hN
  refine ⟨h4, by simp [ha], ?_⟩
  intro k hk
  have hk3 : k + 3 < (regexp.FindAllSubmatch parser.outageAddressesRx doc).length := by omega
  obtain ⟨whole, content, hb, hne, hcls⟩ := addresses_group doc _ (List.getElem_mem hk3)
  refine ⟨whole, content, ?_, hne, hcls, ?_⟩
  · rw [List.getElem?_eq_getElem hk3, hb]
  · rw [ha, List.getElem?_map, List.getElem?_drop, Nat.add_comm 3 k,
      List.getElem?_eq_getElem hk3, hb]
    rfl

/-- C7, at the page `sample.problemPage`, which has five generic blocks: the
two addresses are the contents of the fourth and the fifth, trimmed. -/
theorem parseProblem_addresses_witness :
    4 ≤ 5 ∧ sample.problem.AddressesGe.length = 5 - 3 ∧
    ∀ k, k < 5 - 3 → ∃ whole content,
      (regexp.FindAllSubmatch parser.outageAddressesRx sample.problemPage)[k + 3]? =
        some [whole, content] ∧
      content.toList ≠ [] ∧ (∀ x ∈ content.toList, x ≠ '<' ∧ x ≠ '>') ∧
      sample.problem.AddressesGe[k]? =
        some (TrimSpace (UnescapeString sample.w.entities content)) :=
  parseProblem_addresses sample.w sample.location sample.problemPage sample.problem 5
    (by decide!) (by decide!)

/-! ### The calendar: `absDate` inverts the day count of `Date` -/

theorem isLeap_iff (y : Int) :
    time.isLeap y = true ↔ (y % 4 = 0 ∧ (y % 100 ≠ 0 ∨ y % 400 = 0)) := by
  simp [time.isLeap]

theorem absYear_core (d b c f g : Int)
    (hb : 146097 * b ≤ d ∧ d < 146097 * b + 146097)
    (hc : c = 0 ∨ c = 1 ∨ c = 2 ∨ c = 3)
    (hc2 : 36524 * c ≤ d - 146097 * b ∧ (d - 146097 * b < 36524 * c + 36524 ∨ c = 3))
    (hf : 1461 * f ≤ d - 146097 * b - 36524 * c ∧ d - 146097 * b - 36524 * c < 1461 * f + 1461)
    (hg : g = 0 ∨ g = 1 ∨ g = 2 ∨ g = 3)
    (hg2 : 365 * g ≤ d - 146097 * b - 36524 * c - 1461 * f ∧
      (d - 146097 * b - 36524 * c - 1461 * f < 365 * g + 365 ∨ g = 3)) :
    time.daysSinceYearOne (400 * b + 100 * c + 4 * f + g + 1) +
      (d - 146097 * b - 36524 * c - 1461 * f - 365 * g) = d ∧
    d - 146097 * b - 36524 * c - 1461 * f - 365 * g <
      time.daysSinceYearOne (400 * b + 100 * c + 4 * f + g + 1 + 1) -
        time.daysSinceYearOne (400 * b + 100 * c + 4 * f + g + 1) := by
  simp only [time.daysSinceYearOne]
  rcases hc with rfl | rfl | rfl | rfl <;> rcases hg with rfl | rfl | rfl | rfl <;> omega

theorem daysSinceYearOne_succ (y : Int) :
    time.daysSinceYearOne (y + 1) =
      time.daysSinceYearOne y + 365 + (if time.isLeap y = true then 1 else 0) := by
  have a1 : y % 100 = 0 → y % 4 = 0 := by omega
  have a2 : y % 400 = 0 → y % 100 = 0 := by omega
  have e : y + 1 - 1 = y := by omega
  simp only [time.daysSinceYearOne, e, isLeap_iff]
  by_cases h4 : y % 4 = 0
  · by_cases h100 : y % 100 = 0
    · by_cases h400 : y % 400 = 0
      · simp only [h4, h100, h400, ne_eq, not_true_eq_false, or_true, and_self, if_true]
        omega
      · simp only [h4, h100, h400, ne_eq, not_true_eq_false, or_self, and_false, if_false]
        omega
    · have h400 : ¬ y % 400 = 0 := fun h => h100 (a2 h)
      simp only [h4, h100, h400, ne_eq, not_false_eq_true, or_false, and_self, if_true]
      omega
  · have h100 : ¬ y % 100 = 0 := fun h => h4 (a1 h)
    have h400 : ¬ y % 400 = 0 := fun h => h100 (a2 h)
    simp only [h4, false_and, if_false]
    omega

theorem absYear_spec (d : Int) :
    time.daysSinceYearOne (time.absYear d).1 + (time.absYear d).2 = d ∧
    0 ≤ (time.absYear d).2 ∧
    (time.absYear d).2 < 365 + (if time.isLeap (time.absYear d).1 = true then 1 else 0) := by
  have key : ∀ b c f g : Int, b = d / 146097 → c = (d - 146097 * b) / 36524 →
      f = (d - 146097 * b - 36524 * (c - c / 4)) / 1461 →
      g = (d - 146097 * b - 36524 * (c - c / 4) - 1461 * f) / 365 →
      time.daysSinceYearOne (400 * b + 100 * (c - c / 4) + 4 * f + (g - g / 4) + 1) +
        (d - 146097 * b - 36524 * (c - c / 4) - 1461 * f - 365 * (g - g / 4)) = d ∧
      0 ≤ d - 146097 * b - 36524 * (c - c / 4) - 1461 * f - 365 * (g - g / 4) ∧
      d - 146097 * b - 36524 * (c - c / 4) - 1461 * f - 365 * (g - g / 4) <
        time.daysSinceYearOne (400 * b + 100 * (c - c / 4) + 4 * f + (g - g / 4) + 1 + 1) -
          time.daysSinceYearOne (400 * b + 100 * (c - c / 4) + 4 * f + (g - g / 4) + 1) := by
    intro b c f g hb hc hf hg
    have hb1 : 146097 * b ≤ d ∧ d < 146097 * b + 146097 := by omega
    have hc1 : 0 ≤ c ∧ c ≤ 4 := by omega
    have hc2 : c - c / 4 = 0 ∨ c - c / 4 = 1 ∨ c - c / 4 = 2 ∨ c - c / 4 = 3 := by omega
    have hc3 : 36524 * (c - c / 4) ≤ d - 146097 * b ∧
        (d - 146097 * b < 36524 * (c - c / 4) + 36524 ∨ c - c / 4 = 3) := by omega
    have hf1 : 1461 * f ≤ d - 146097 * b - 36524 * (c - c / 4) ∧
        d - 146097 * b - 36524 * (c - c / 4) < 1461 * f + 1461 := by omega
    have hg1 : 0 ≤ g ∧ g ≤ 4 := by omega
    have hg2 : g - g / 4 = 0 ∨ g - g / 4 = 1 ∨ g - g / 4 = 2 ∨ g - g / 4 = 3 := by omega
    have hg3 : 365 * (g - g / 4) ≤ d - 146097 * b - 36524 * (c - c / 4) - 1461 * f ∧
        (d - 146097 * b - 36524 * (c - c / 4) - 1461 * f < 365 * (g - g / 4) + 365 ∨
          g - g / 4 = 3) := by omega
    have := absYear_core d b (c - c / 4) f (g - g / 4) hb1 hc2 hc3 hf1 hg2 hg3
    refine ⟨this.1, by omega, this.2⟩
  have h := key _ _ _ _ rfl rfl rfl rfl
  have e := daysSinceYearOne_succ (time.absYear d).1
  refine ⟨h.1, h.2.1, ?_⟩
  have h3 := h.2.2
  simp only [time.absYear] at e ⊢
  omega

theorem daysBefore_values :
    time.daysBefore 0 = 0 ∧ time.daysBefore 1 = 31 ∧ time.daysBefore 2 = 59 ∧
    time.daysBefore 3 = 90 ∧ time.daysBefore 4 = 120 ∧ time.daysBefore 5 = 151 ∧
    time.daysBefore 6 = 181 ∧ time.daysBefore 7 = 212 ∧ time.daysBefore 8 = 243 ∧
    time.daysBefore 9 = 273 ∧ time.daysBefore 10 = 304 ∧ time.daysBefore 11 = 334 ∧
    time.daysBefore 12 = 365 := by
  decide

/-- The days before month `m` and the days of month `m`, in a year that is leap
or not, for the twelve months. -/
theorem month_table (m : Int) (hm : 1 ≤ m ∧ m ≤ 12) :
    (m = 1 ∧ time.daysBefore (m - 1) = 0 ∧ time.daysBefore m = 31) ∨
    (m = 2 ∧ time.daysBefore (m - 1) = 31 ∧ time.daysBefore m = 59) ∨
    (m = 3 ∧ time.daysBefore (m - 1) = 59 ∧ time.daysBefore m = 90) ∨
    (m = 4 ∧ time.daysBefore (m - 1) = 90 ∧ time.daysBefore m = 120) ∨
    (m = 5 ∧ time.daysBefore (m - 1) = 120 ∧ time.daysBefore m = 151) ∨
    (m = 6 ∧ time.daysBefore (m - 1) = 151 ∧ time.daysBefore m = 181) ∨
    (m = 7 ∧ time.daysBefore (m - 1) = 181 ∧ time.daysBefore m = 212) ∨
    (m = 8 ∧ time.daysBefore (m - 1) = 212 ∧ time.daysBefore m = 243) ∨
    (m = 9 ∧ time.daysBefore (m - 1) = 243 ∧ time.daysBefore m = 273) ∨
    (m = 10 ∧ time.daysBefore (m - 1) = 273 ∧ time.daysBefore m = 304) ∨
    (m = 11 ∧ time.daysBefore (m - 1) = 304 ∧ time.daysBefore m = 334) ∨
    (m = 12 ∧ time.daysBefore (m - 1) = 334 ∧ time.daysBefore m = 365) := by
  obtain ⟨h1, h2⟩ := hm
  interval_cases m <;> decide

theorem absMonthDay_spec (leap : Bool) (yday : Int) (h0 : 0 ≤ yday)
    (h1 : yday < 365 + (if leap = true then 1 else 0)) :
    1 ≤ (time.absMonthDay leap yday).1 ∧ (time.absMonthDay leap yday).1 ≤ 12 ∧
    1 ≤ (time.absMonthDay leap yday).2 ∧
    (time.absMonthDay leap yday).2 ≤
      time.daysBefore (time.absMonthDay leap yday).1 -
        time.daysBefore ((time.absMonthDay leap yday).1 - 1) +
        (if leap = true ∧ (time.absMonthDay leap yday).1 = 2 then 1 else 0) ∧
    time.daysBefore ((time.absMonthDay leap yday).1 - 1) +
      (if leap = true ∧ (time.absMonthDay leap yday).1 ≥ 3 then 1 else 0) +
      ((time.absMonthDay leap yday).2 - 1) = yday := by
  obtain ⟨v0, v1, v2, v3, v4, v5, v6, v7, v8, v9, v10, v11, v12⟩ := daysBefore_values
  cases leap with
  | false =>
    simp only [Bool.false_eq_true, if_false, add_zero, false_and] at h1 ⊢
    simp only [time.absMonthDay, Bool.false_and, Bool.false_eq_true, if_false]
    have hq : 0 ≤ yday / 31 ∧ yday / 31 ≤ 11 := by omega
    obtain ⟨hq0, hq1⟩ := hq
    generalize hqe : yday / 31 = q at hq0 hq1 ⊢
    interval_cases q <;> norm_num [v0, v1, v2, v3, v4, v5, v6, v7, v8, v9, v10, v11, v12] <;>
      split_ifs <;> norm_num [v0, v1, v2, v3, v4, v5, v6, v7, v8, v9, v10, v11, v12] <;> omega
  | true =>
    simp only [if_true, true_and] at h1 ⊢
    by_cases h59 : yday = 59
    · subst h59
      simp [time.absMonthDay, v1, v2]
    · simp only [time.absMonthDay, Bool.true_and, beq_iff_eq]
      have e59 : (31 : Int) + 29 - 1 = 59 := by norm_num
      simp only [e59, h59, if_false, decide_eq_true_eq]
      by_cases hgt : yday > 59
      · simp only [hgt, if_true]
        have hq : 0 ≤ (yday - 1) / 31 ∧ (yday - 1) / 31 ≤ 11 := by omega
        obtain ⟨hq0, hq1⟩ := hq
        generalize hqe : (yday - 1) / 31 = q at hq0 hq1 ⊢
        interval_cases q <;> norm_num [v0, v1, v2, v3, v4, v5, v6, v7, v8, v9, v10, v11, v12] <;>
          split_ifs <;> norm_num [v0, v1, v2, v3, v4, v5, v6, v7, v8, v9, v10, v11, v12] <;> omega
      · simp only [hgt, if_false]
        have hq : 0 ≤ yday / 31 ∧ yday / 31 ≤ 1 := by omega
        obtain ⟨hq0, hq1⟩ := hq
        generalize hqe : yday / 31 = q at hq0 hq1 ⊢
        interval_cases q <;> norm_num [v0, v1, v2, v3, v4, v5, v6, v7, v8, v9, v10, v11, v12] <;>
          split_ifs <;> norm_num [v0, v1, v2, v3, v4, v5, v6, v7, v8, v9, v10, v11, v12] <;> omega

theorem absDate_spec (d : Int) :
    validDate (time.absDate d).1 (time.absDate d).2.1 (time.absDate d).2.2 ∧
    dayNumber (time.absDate d).1 (time.absDate d).2.1 (time.absDate d).2.2 = d := by
  obtain ⟨hy, h0, h1⟩ := absYear_spec d
  have hm := absMonthDay_spec (time.isLeap (time.absYear d).1) (time.absYear d).2 h0 h1
  obtain ⟨m1, m2, m3, m4, m5⟩ := hm
  have e : time.absDate d = ((time.absYear d).1,
      (time.absMonthDay (time.isLeap (time.absYear d).1) (time.absYear d).2).1,
      (time.absMonthDay (time.isLeap (time.absYear d).1) (time.absYear d).2).2) := rfl
  rw [e]
  refine ⟨⟨m1, m2, m3, m4⟩, ?_⟩
  simp only [dayNumber, Bool.and_eq_true, decide_eq_true_eq]
  omega

theorem daysSinceYearOne_mono (a b : Int) (h : a ≤ b) :
    time.daysSinceYearOne a ≤ time.daysSinceYearOne b := by
  simp only [time.daysSinceYearOne]
  omega

theorem dayNumber_bounds (y m d : Int) (hv : validDate y m d) :
    time.daysSinceYearOne y ≤ dayNumber y m d ∧
    dayNumber y m d < time.daysSinceYearOne (y + 1) := by
  obtain ⟨h1, h2, h3, h4⟩ := hv
  have ht := month_table m ⟨h1, h2⟩
  rw [daysSinceYearOne_succ]
  simp only [dayNumber, Bool.and_eq_true, decide_eq_true_eq]
  by_cases hl : time.isLeap y = true
  · simp only [hl, true_and, if_true] at h4 ⊢
    split_ifs at h4 ⊢ <;> omega
  · simp only [hl, Bool.false_eq_true, false_and, if_false] at h4 ⊢
    omega

theorem dayNumber_lt_month (y m1 d1 m2 d2 : Int) (hv1 : validDate y m1 d1)
    (hv2 : validDate y m2 d2) (h : m1 < m2 ∨ (m1 = m2 ∧ d1 < d2)) :
    dayNumber y m1 d1 < dayNumber y m2 d2 := by
  obtain ⟨a1, a2, a3, a4⟩ := hv1
  obtain ⟨b1, b2, b3, b4⟩ := hv2
  simp only [dayNumber, Bool.and_eq_true, decide_eq_true_eq]
  rcases h with h | ⟨rfl, h⟩
  · have ht1 := month_table m1 ⟨a1, a2⟩
    have ht2 := month_table m2 ⟨b1, b2⟩
    by_cases hl : time.isLeap y = true
    · simp only [hl, true_and, if_true] at a4 b4 ⊢
      split_ifs at a4 b4 ⊢ <;> omega
    · simp only [hl, Bool.false_eq_true, false_and, if_false] at a4 b4 ⊢
      omega
  · omega

/-- The day count of `Date` increases along the order of the dates: by year, then
month, then day. -/
theorem dayNumber_lt (y1 m1 d1 y2 m2 d2 : Int) (hv1 : validDate y1 m1 d1)
    (hv2 : validDate y2 m2 d2)
    (h : y1 < y2 ∨ (y1 = y2 ∧ (m1 < m2 ∨ (m1 = m2 ∧ d1 < d2)))) :
    dayNumber y1 m1 d1 < dayNumber y2 m2 d2 := by
  rcases h with h | ⟨rfl, h⟩
  · have b1 := (dayNumber_bounds y1 m1 d1 hv1).2
    have b2 := (dayNumber_bounds y2 m2 d2 hv2).1
    have b3 := daysSinceYearOne_mono (y1 + 1) y2 (by omega)
    omega
  · exact dayNumber_lt_month y1 m1 d1 m2 d2 hv1 hv2 h

/-! ### The civil reading follows the instant -/

theorem civil_fields (t : time.Time) :
    validDate t.civil.year t.civil.month t.civil.day ∧
    dayNumber t.civil.year t.civil.month t.civil.day =
      (t.sec + t.civil.offset) / 86400 + time.unixEpochDays ∧
    t.civil.hour * 3600 + t.civil.min * 60 + t.civil.sec = (t.sec + t.civil.offset) % 86400 ∧
    0 ≤ t.civil.hour ∧ t.civil.hour < 24 ∧ 0 ≤ t.civil.min ∧ t.civil.min < 60 ∧
    0 ≤ t.civil.sec ∧ t.civil.sec < 60 := by
  have hd := absDate_spec ((t.sec + (t.loc.lookup t.sec).1) / 86400 + time.unixEpochDays)
  refine ⟨hd.1, hd.2, ?_⟩
  simp only [time.Time.civil]
  omega

theorem date_order (y1 m1 d1 y2 m2 d2 : Int) (hv1 : validDate y1 m1 d1)
    (hv2 : validDate y2 m2 d2) (h : dayNumber y1 m1 d1 < dayNumber y2 m2 d2) :
    y1 < y2 ∨ (y1 = y2 ∧ (m1 < m2 ∨ (m1 = m2 ∧ d1 < d2))) := by
  by_contra hn
  have hge : y2 < y1 ∨ (y2 = y1 ∧ (m2 < m1 ∨ (m2 = m1 ∧ d2 < d1))) ∨
      (y1 = y2 ∧ m1 = m2 ∧ d1 = d2) := by omega
  rcases hge with h1 | h1 | ⟨rfl, rfl, rfl⟩
  · have := dayNumber_lt y2 m2 d2 y1 m1 d1 hv2 hv1 (Or.inl h1)
    omega
  · have := dayNumber_lt y2 m2 d2 y1 m1 d1 hv2 hv1 (Or.inr h1)
    omega
  · omega

theorem date_eq (y1 m1 d1 y2 m2 d2 : Int) (hv1 : validDate y1 m1 d1)
    (hv2 : validDate y2 m2 d2) (h : dayNumber y1 m1 d1 = dayNumber y2 m2 d2) :
    y1 = y2 ∧ m1 = m2 ∧ d1 = d2 := by
  by_contra hn
  have hne : (y1 < y2 ∨ (y1 = y2 ∧ (m1 < m2 ∨ (m1 = m2 ∧ d1 < d2)))) ∨
      (y2 < y1 ∨ (y2 = y1 ∧ (m2 < m1 ∨ (m2 = m1 ∧ d2 < d1)))) := by omega
  rcases hne with h1 | h1
  · have := dayNumber_lt y1 m1 d1 y2 m2 d2 hv1 hv2 h1
    omega
  · have := dayNumber_lt y2 m2 d2 y1 m1 d1 hv2 hv1 h1
    omega

/-- Of two instants read with one offset, the earlier second has the earlier
civil reading. -/
theorem civilLess_of_sec (t u : time.Time) (ho : t.civil.offset = u.civil.offset)
    (h : t.sec < u.sec) : civilLess t.civil u.civil := by
  obtain ⟨tv, td, ts, th0, th1, tm0, tm1, ts0, ts1⟩ := civil_fields t
  obtain ⟨uv, ud, us, uh0, uh1, um0, um1, us0, us1⟩ := civil_fields u
  rw [ho] at td ts
  by_cases hday : (t.sec + u.civil.offset) / 86400 = (u.sec + u.civil.offset) / 86400
  · have he := date_eq _ _ _ _ _ _ tv uv (by rw [td, ud, hday])
    obtain ⟨e1, e2, e3⟩ := he
    unfold civilLess
    omega
  · have hlt := date_order _ _ _ _ _ _ tv uv (by rw [td, ud]; omega)
    unfold civilLess
    omega

/-! ### The order of the store on the RFC 3339 texts -/

theorem bytesLess_irrefl : ∀ (a : List Char), repo.bytesLess a a = false := by
  intro a
  induction a with
  | nil => rfl
  | cons c a ih => simp [repo.bytesLess, ih]

theorem bytesLess_asymm : ∀ (a b : List Char), repo.bytesLess a b = true →
    repo.bytesLess b a = false := by
  intro a
  induction a with
  | nil =>
    intro b h
    cases b with
    | nil => rfl
    | cons d b => rfl
  | cons c a ih =>
    intro b h
    cases b with
    | nil => simp [repo.bytesLess] at h
    | cons d b =>
      simp only [repo.bytesLess, Bool.or_eq_true, decide_eq_true_eq, Bool.and_eq_true,
        beq_iff_eq] at h
      simp only [repo.bytesLess, Bool.or_eq_false_iff, decide_eq_false_iff_not,
        Bool.and_eq_false_imp, beq_iff_eq]
      rcases h with h | ⟨rfl, h⟩
      · refine ⟨by omega, ?_⟩
        intro hdc
        subst hdc
        omega
      · exact ⟨by omega, fun _ => ih b h⟩

theorem bytesLess_append_left (p : List Char) (r1 r2 : List Char) :
    repo.bytesLess (p ++ r1) (p ++ r2) = repo.bytesLess r1 r2 := by
  induction p with
  | nil => rfl
  | cons c p ih => simp [repo.bytesLess, ih]

theorem bytesLess_append_of_less : ∀ (p1 p2 r1 r2 : List Char), p1.length = p2.length →
    repo.bytesLess p1 p2 = true → repo.bytesLess (p1 ++ r1) (p2 ++ r2) = true := by
  intro p1
  induction p1 with
  | nil =>
    intro p2 r1 r2 hl h
    cases p2 with
    | nil => simp [repo.bytesLess] at h
    | cons d p2 => simp at hl
  | cons c p1 ih =>
    intro p2 r1 r2 hl h
    cases p2 with
    | nil => simp at hl
    | cons d p2 =>
      simp only [repo.bytesLess, Bool.or_eq_true, decide_eq_true_eq, Bool.and_eq_true,
        beq_iff_eq, List.cons_append] at h ⊢
      rcases h with h | ⟨rfl, h⟩
      · exact Or.inl h
      · exact Or.inr ⟨rfl, ih p2 r1 r2 (by simpa using hl) h⟩

/-- One field of the text and what follows it: the field decides, and the rest
when the fields are equal. -/
theorem bytesLess_field (p1 p2 r1 r2 : List Char) (hl : p1.length = p2.length)
    (h : repo.bytesLess p1 p2 = true ∨ (p1 = p2 ∧ repo.bytesLess r1 r2 = true)) :
    repo.bytesLess (p1 ++ r1) (p2 ++ r2) = true := by
  rcases h with h | ⟨rfl, h⟩
  · exact bytesLess_append_of_less p1 p2 r1 r2 hl h
  · rw [bytesLess_append_left]; exact h

theorem digitChar_toNat (d : Nat) (h : d < 10) : (time.digitChar d).toNat = 48 + d := by
  interval_cases d <;> decide

theorem bytesLess_two (a b : Nat) (ha : a < 100) (hb : b < 100) (h : a < b) :
    repo.bytesLess [time.digitChar (a / 10), time.digitChar (a % 10)]
      [time.digitChar (b / 10), time.digitChar (b % 10)] = true := by
  have a1 : a / 10 < 10 := by omega
  have a0 : a % 10 < 10 := by omega
  have b1 : b / 10 < 10 := by omega
  have b0 : b % 10 < 10 := by omega
  simp only [repo.bytesLess, digitChar_toNat _ a1, digitChar_toNat _ a0, digitChar_toNat _ b1,
    digitChar_toNat _ b0, Bool.or_eq_true, decide_eq_true_eq, Bool.and_eq_true, beq_iff_eq,
    Bool.and_false, Bool.or_false]
  by_cases h1 : a / 10 < b / 10
  · exact Or.inl (by omega)
  · have e : a / 10 = b / 10 := by omega
    exact Or.inr ⟨by rw [e], by omega⟩

theorem bytesLess_four (a b : Nat) (ha : a < 10000) (hb : b < 10000) (h : a < b) :
    repo.bytesLess
      [time.digitChar (a / 1000), time.digitChar (a / 100 % 10), time.digitChar (a / 10 % 10),
        time.digitChar (a % 10)]
      [time.digitChar (b / 1000), time.digitChar (b / 100 % 10), time.digitChar (b / 10 % 10),
        time.digitChar (b % 10)] = true := by
  have a3 : a / 1000 < 10 := by omega
  have a2 : a / 100 % 10 < 10 := by omega
  have a1 : a / 10 % 10 < 10 := by omega
  have a0 : a % 10 < 10 := by omega
  have b3 : b / 1000 < 10 := by omega
  have b2 : b / 100 % 10 < 10 := by omega
  have b1 : b / 10 % 10 < 10 := by omega
  have b0 : b % 10 < 10 := by omega
  simp only [repo.bytesLess, digitChar_toNat _ a3, digitChar_toNat _ a2, digitChar_toNat _ a1,
    digitChar_toNat _ a0, digitChar_toNat _ b3, digitChar_toNat _ b2, digitChar_toNat _ b1,
    digitChar_toNat _ b0, Bool.or_eq_true, decide_eq_true_eq, Bool.and_eq_true, beq_iff_eq,
    Bool.and_false, Bool.or_false]
  by_cases h3 : a / 1000 < b / 1000
  · exact Or.inl (by omega)
  · have e3 : a / 1000 = b / 1000 := by omega
    refine Or.inr ⟨by rw [e3], ?_⟩
    by_cases h2 : a / 100 % 10 < b / 100 % 10
    · exact Or.inl (by omega)
    · have e2 : a / 100 % 10 = b / 100 % 10 := by omega
      refine Or.inr ⟨by rw [e2], ?_⟩
      by_cases h1 : a / 10 % 10 < b / 10 % 10
      · exact Or.inl (by omega)
      · have e1 : a / 10 % 10 = b / 10 % 10 := by omega
        exact Or.inr ⟨by rw [e1], by omega⟩

theorem bytesLess_segment (p1 p2 r1 r2 : List Char) (sep : Char)
    (hl : p1.length = p2.length)
    (h : repo.bytesLess p1 p2 = true ∨ (p1 = p2 ∧ repo.bytesLess r1 r2 = true)) :
    repo.bytesLess (p1 ++ sep :: r1) (p2 ++ sep :: r2) = true := by
  apply bytesLess_field p1 p2 _ _ hl
  rcases h with h | ⟨e, h⟩
  · exact Or.inl h
  · exact Or.inr ⟨e, by simpa [repo.bytesLess] using h⟩

theorem appendInt_two_int (x : Int) (h0 : 0 ≤ x) (h1 : x < 100) :
    time.appendInt x 2 = [time.digitChar (x.toNat / 10), time.digitChar (x.toNat % 10)] := by
  have e : ((x.toNat : Nat) : Int) = x := by omega
  have h := appendInt_two x.toNat (by omega)
  rw [e] at h
  exact h

theorem appendInt_four_int (x : Int) (h0 : 0 ≤ x) (h1 : x < 10000) :
    time.appendInt x 4 =
      [time.digitChar (x.toNat / 1000), time.digitChar (x.toNat / 100 % 10),
        time.digitChar (x.toNat / 10 % 10), time.digitChar (x.toNat % 10)] := by
  have e : ((x.toNat : Nat) : Int) = x := by omega
  have h := appendInt_four x.toNat (by omega)
  rw [e] at h
  exact h

theorem field_two (x y : Int) (hx0 : 0 ≤ x) (hx : x < 100) (hy0 : 0 ≤ y) (hy : y < 100) :
    (time.appendInt x 2).length = (time.appendInt y 2).length ∧
    (x < y → repo.bytesLess (time.appendInt x 2) (time.appendInt y 2) = true) := by
  rw [appendInt_two_int x hx0 hx, appendInt_two_int y hy0 hy]
  exact ⟨rfl, fun h => bytesLess_two _ _ (by omega) (by omega) (by omega)⟩

theorem field_four (x y : Int) (hx0 : 0 ≤ x) (hx : x < 10000) (hy0 : 0 ≤ y)
    (hy : y < 10000) :
    (time.appendInt x 4).length = (time.appendInt y 4).length ∧
    (x < y → repo.bytesLess (time.appendInt x 4) (time.appendInt y 4) = true) := by
  rw [appendInt_four_int x hx0 hx, appendInt_four_int y hy0 hy]
  exact ⟨rfl, fun h => bytesLess_four _ _ (by omega) (by omega) (by omega)⟩

theorem Format_RFC3339 (t : time.Time) :
    (t.Format time.RFC3339).toList =
      time.appendInt t.civil.year 4 ++ '-' :: (time.appendInt t.civil.month 2 ++ '-' ::
        (time.appendInt t.civil.day 2 ++ 'T' :: (time.appendInt t.civil.hour 2 ++ ':' ::
          (time.appendInt t.civil.min 2 ++ ':' :: (time.appendInt t.civil.sec 2 ++
            time.formatStd t.civil .stdISO8601ColonTZ))))) := by
  simp [time.Time.Format, time.RFC3339, time.formatStd]

theorem validDate_day (y m d : Int) (hv : validDate y m d) : 1 ≤ d ∧ d ≤ 31 := by
  obtain ⟨h1, h2, h3, h4⟩ := hv
  have ht := month_table m ⟨h1, h2⟩
  refine ⟨h3, ?_⟩
  split_ifs at h4 <;> omega

/-- The RFC 3339 texts of two instants read with one offset, in years of four
digits: the text of the earlier civil reading is the lesser in the order of the
store. -/
theorem Format_less (t u : time.Time) (ho : t.civil.offset = u.civil.offset)
    (hty : 0 ≤ t.civil.year ∧ t.civil.year ≤ 9999)
    (huy : 0 ≤ u.civil.year ∧ u.civil.year ≤ 9999)
    (h : civilLess t.civil u.civil) :
    repo.bytesLess (t.Format time.RFC3339).toList (u.Format time.RFC3339).toList = true := by
  obtain ⟨tv, _, _, th0, th1, tm0, tm1, ts0, ts1⟩ := civil_fields t
  obtain ⟨uv, _, _, uh0, uh1, um0, um1, us0, us1⟩ := civil_fields u
  obtain ⟨td0, td1⟩ := validDate_day _ _ _ tv
  obtain ⟨ud0, ud1⟩ := validDate_day _ _ _ uv
  have hz : time.formatStd t.civil .stdISO8601ColonTZ =
      time.formatStd u.civil .stdISO8601ColonTZ := by
    simp [time.formatStd, ho]
  rw [Format_RFC3339, Format_RFC3339, hz]
  obtain ⟨ly, fy⟩ := field_four t.civil.year u.civil.year hty.1 (by omega) huy.1 (by omega)
  obtain ⟨lm, fm⟩ := field_two t.civil.month u.civil.month (by have := tv.1; omega)
    (by have := tv.2.1; omega) (by have := uv.1; omega) (by have := uv.2.1; omega)
  obtain ⟨ld, fd⟩ := field_two t.civil.day u.civil.day (by omega) (by omega) (by omega)
    (by omega)
  obtain ⟨lh, fh⟩ := field_two t.civil.hour u.civil.hour th0 (by omega) uh0 (by omega)
  obtain ⟨li, fi⟩ := field_two t.civil.min u.civil.min tm0 (by omega) um0 (by omega)
  obtain ⟨ls, fs⟩ := field_two t.civil.sec u.civil.sec ts0 (by omega) us0 (by omega)
  apply bytesLess_segment _ _ _ _ _ ly
  rcases h with h | ⟨e, h⟩
  · exact Or.inl (fy h)
  refine Or.inr ⟨by rw [e], ?_⟩
  apply bytesLess_segment _ _ _ _ _ lm
  rcases h with h | ⟨e, h⟩
  · exact Or.inl (fm h)
  refine Or.inr ⟨by rw [e], ?_⟩
  apply bytesLess_segment _ _ _ _ _ ld
  rcases h with h | ⟨e, h⟩
  · exact Or.inl (fd h)
  refine Or.inr ⟨by rw [e], ?_⟩
  apply bytesLess_segment _ _ _ _ _ lh
  rcases h with h | ⟨e, h⟩
  · exact Or.inl (fh h)
  refine Or.inr ⟨by rw [e], ?_⟩
  apply bytesLess_segment _ _ _ _ _ li
  rcases h with h | ⟨e, h⟩
  · exact Or.inl (fi h)
  refine Or.inr ⟨by rw [e], ?_⟩
  exact bytesLess_append_of_less _ _ _ _ ls (fs h)

/-- The comparison of the sort key: for two instants read with one offset, in
years of four digits, the RFC 3339 text of `t` is below that of `u` in the
order of the store exactly when `t` is a second or more before `u`. -/
theorem Format_less_iff (t u : time.Time) (ho : t.civil.offset = u.civil.offset)
    (hty : 0 ≤ t.civil.year ∧ t.civil.year ≤ 9999)
    (huy : 0 ≤ u.civil.year ∧ u.civil.year ≤ 9999) :
    repo.bytesLess (t.Format time.RFC3339).toList (u.Format time.RFC3339).toList = true ↔
      t.sec < u.sec := by
  constructor
  · intro h
    by_contra hn
    by_cases he : t.sec = u.sec
    · have hc : t.civil = u.civil := by
        have h1 : (t.loc.lookup t.sec).1 = (u.loc.lookup u.sec).1 := ho
        rw [he] at h1
        simp only [time.Time.civil, he, h1]
      have hf : (t.Format time.RFC3339).toList = (u.Format time.RFC3339).toList := by
        rw [Format_RFC3339, Format_RFC3339, hc]
      rw [hf, bytesLess_irrefl] at h
      exact absurd h (by decide)
    · have hlt : u.sec < t.sec := by omega
      have h2 := Format_less u t ho.symm huy hty (civilLess_of_sec u t ho.symm hlt)
      rw [bytesLess_asymm _ _ h2] at h
      exact absurd h (by decide)
  · intro h
    exact Format_less t u ho hty huy (civilLess_of_sec t u ho h)

/-! ### The repository -/

theorem mem_insertByKey (a x : repo.Item) : ∀ (l : List repo.Item),
    x ∈ repo.insertByKey a l ↔ x = a ∨ x ∈ l := by
  intro l
  induction l with
  | nil => simp [repo.insertByKey]
  | cons y l ih =>
    unfold repo.insertByKey
    split
    · simp only [List.mem_cons, ih]
      tauto
    · simp only [List.mem_cons]

theorem mem_foldr_insertByKey (x : repo.Item) : ∀ (l : List repo.Item),
    x ∈ l.foldr repo.insertByKey [] ↔ x ∈ l := by
  intro l
  induction l with
  | nil => simp
  | cons y l ih => simp only [List.foldr_cons, mem_insertByKey, ih, List.mem_cons]

theorem mem_Query (table : List repo.Item) (titleLat now : String) (x : repo.Item) :
    x ∈ repo.Query table titleLat now ↔
      ∃ item ∈ table, repo.keyCondition titleLat now item = true ∧
        x = item.filter (fun kv => repo.projection.contains kv.1) := by
  simp only [repo.Query, List.mem_map, mem_foldr_insertByKey, List.mem_filter]
  constructor
  · rintro ⟨item, ⟨h1, h2⟩, rfl⟩
    exact ⟨item, h1, h2, rfl⟩
  · rintro ⟨item, h1, h2, rfl⟩
    exact ⟨item, ⟨h1, h2⟩, rfl⟩

theorem attr_projection (name : String) (hn : repo.projection.contains name = true) :
    ∀ (item : repo.Item),
    repo.Item.attr (item.filter (fun kv => repo.projection.contains kv.1)) name =
      repo.Item.attr item name := by
  intro item
  induction item with
  | nil => rfl
  | cons kv item ih =>
    simp only [repo.Item.attr] at ih ⊢
    by_cases hk : repo.projection.contains kv.1 = true
    · simp only [List.filter_cons, hk, if_true, List.find?_cons]
      split
      · rfl
      · exact ih
    · have hne : (kv.1 == name) = false := by
        by_contra hc
        simp only [Bool.not_eq_false, beq_iff_eq] at hc
        rw [hc] at hk
        exact hk hn
      simp only [List.filter_cons, hk, Bool.false_eq_true, if_false, List.find?_cons, hne]
      exact ih

theorem keyCondition_projection (titleLat now : String) (item : repo.Item) :
    repo.keyCondition titleLat now (item.filter (fun kv => repo.projection.contains kv.1)) =
      repo.keyCondition titleLat now item := by
  unfold repo.keyCondition
  rw [attr_projection _ (by decide), attr_projection _ (by decide)]

theorem keyCondition_itemOf (titleLat now : String) (r : outage.WaterGovGe) :
    repo.keyCondition titleLat now (repo.itemOf r) =
      (r.Location.TitleLat == titleLat &&
        repo.bytesLess now.toList (r.Start.Format time.RFC3339).toList) := rfl

theorem itemOf_projection (r : outage.WaterGovGe) :
    (repo.itemOf r).filter (fun kv => repo.projection.contains kv.1) = repo.itemOf r := rfl

/-- C5, the claim as stated fails: the clock reports 16:00:00 UTC on 8 September
2023, which is after the start 19:20:00 +04:00 of the stored record, and the
key `2023-09-08T19:20:00+04:00` is above the text `2023-09-08T16:00:00Z` in the
order of the store, so `GetOutages` returns the record. -/
theorem GetOutages_other_zone_counterexample :
    sample.eveningUTC.After sample.stored.Start = true ∧
    repo.itemOf sample.stored ∈
      repo.Query [repo.itemOf sample.stored] "ozurgeti"
        (sample.eveningUTC.Format time.RFC3339) ∧
    (repo.GetOutages (sample.dynamo sample.eveningUTC) [repo.itemOf sample.stored]
      "ozurgeti").1.map (fun r => r.Location.Id) = ["1"] := by
  decide!

/-- C5, amended: for a stored record and a time of the clock that is read with
the same offset from UTC as the start of the record, both in years 0 to 9999,
the start being on a whole second: the comparison of the sort key with the
RFC 3339 text of the time of the clock agrees with the order of the two
instants, `GetOutages` asks the store for no item of the record when the clock
is after the start, and for its item when the clock is before the start. -/
theorem GetOutages_start_chronological (w : repo.DynamoWaterGovGe) (table : List repo.Item)
    (r : outage.WaterGovGe)
    (hmem : repo.itemOf r ∈ table)
    (ho : w.now.civil.offset = r.Start.civil.offset)
    (hny : 0 ≤ w.now.civil.year ∧ w.now.civil.year ≤ 9999)
    (hry : 0 ≤ r.Start.civil.year ∧ r.Start.civil.year ≤ 9999)
    (hrn : r.Start.nsec = 0) (hnn : 0 ≤ w.now.nsec) :
    (repo.bytesLess (w.now.Format time.RFC3339).toList (r.Start.Format time.RFC3339).toList
      = true ↔ w.now.Before r.Start = true) ∧
    (w.now.After r.Start = true →
      repo.itemOf r ∉ repo.Query table r.Location.TitleLat (w.now.Format time.RFC3339)) ∧
    (w.now.Before r.Start = true →
      repo.itemOf r ∈ repo.Query table r.Location.TitleLat (w.now.Format time.RFC3339)) ∧
    (∀ result, repo.GetOutages w table r.Location.TitleLat = (result, none) →
      repo.recordsOf w (repo.Query table r.Location.TitleLat (w.now.Format time.RFC3339)) =
        some result) := by
  have hiff := Format_less_iff w.now r.Start ho hny hry
  have hbefore : w.now.Before r.Start = true ↔ w.now.sec < r.Start.sec := by
    simp only [time.Time.Before, hrn, Bool.or_eq_true, decide_eq_true_eq, Bool.and_eq_true,
      beq_iff_eq]
    constructor
    · rintro (h | ⟨_, h⟩)
      · exact h
      · omega
    · exact fun h => Or.inl h
  refine ⟨hiff.trans hbefore.symm, ?_, ?_, ?_⟩
  · intro hafter hq
    have hge : ¬ w.now.sec < r.Start.sec := by
      simp only [time.Time.After, Bool.or_eq_true, decide_eq_true_eq, Bool.and_eq_true,
        beq_iff_eq] at hafter
      omega
    obtain ⟨item, _, hk, hx⟩ := (mem_Query _ _ _ _).mp hq
    rw [← keyCondition_projection, ← hx, keyCondition_itemOf] at hk
    simp only [Bool.and_eq_true] at hk
    exact hge (hiff.mp hk.2)
  · intro hb
    apply (mem_Query _ _ _ _).mpr
    refine ⟨repo.itemOf r, hmem, ?_, (itemOf_projection r).symm⟩
    rw [keyCondition_itemOf]
    simp only [Bool.and_eq_true, beq_iff_eq, true_and]
    exact hiff.mpr (hbefore.mp hb)
  · intro result hres
    unfold repo.GetOutages at hres
    cases hq : w.queryError with
    | some err => rw [hq] at hres; simp at hres
    | none =>
      rw [hq] at hres
      simp only at hres
      cases hr : repo.recordsOf w
          (repo.Query table r.Location.TitleLat (w.now.Format time.RFC3339)) with
      | none => rw [hr] at hres; simp at hres
      | some rs =>
        rw [hr] at hres
        simp only [Prod.mk.injEq, and_true] at hres
        rw [hres]

/-- C5, at the stored record of `sample.stored` and a clock in the zone of the
parser: at 10:00:00 on the day of the start the record is asked for, and the key
is above the text of the clock. -/
theorem GetOutages_start_chronological_witness :
    (repo.bytesLess (sample.morning.Format time.RFC3339).toList
      (sample.stored.Start.Format time.RFC3339).toList = true ↔
        sample.morning.Before sample.stored.Start = true) ∧
    (sample.morning.After sample.stored.Start = true →
      repo.itemOf sample.stored ∉ repo.Query [repo.itemOf sample.stored]
        sample.stored.Location.TitleLat (sample.morning.Format time.RFC3339)) ∧
    (sample.morning.Before sample.stored.Start = true →
      repo.itemOf sample.stored ∈ repo.Query [repo.itemOf sample.stored]
        sample.stored.Location.TitleLat (sample.morning.Format time.RFC3339)) ∧
    (∀ result, repo.GetOutages (sample.dynamo sample.morning) [repo.itemOf sample.stored]
        sample.stored.Location.TitleLat = (result, none) →
      repo.recordsOf (sample.dynamo sample.morning) (repo.Query [repo.itemOf sample.stored]
        sample.stored.Location.TitleLat (sample.morning.Format time.RFC3339)) = some result) :=
  GetOutages_start_chronological (sample.dynamo sample.morning) [repo.itemOf sample.stored]
    sample.stored (List.mem_singleton.mpr rfl) (by decide!) (by decide!) (by decide!)
    (by decide!) (by decide!)

/-- C4: `SaveOutages` writes the same items whatever the `End` of the record is,
and at the record `sample.stored`, saved into the empty table and queried by its
title at a time before its start, the record `GetOutages` returns has the start
of the outage, 19:20:00 on 8 September 2023, as its `End`, where the record
saved ends at 19:20:00 on 11 September 2023. -/
theorem SaveOutages_GetOutages_end :
    (∀ (w : repo.DynamoWaterGovGe) (table : List repo.Item) (r : outage.WaterGovGe)
      (e : time.Time),
      repo.SaveOutages w table [r] = repo.SaveOutages w table [{ r with End := e }]) ∧
    sample.morning.Before sample.stored.Start = true ∧
    repo.SaveOutages (sample.dynamo sample.morning) [] [sample.stored] =
      ([repo.itemOf sample.stored], none) ∧
    repo.GetOutages (sample.dynamo sample.morning) [repo.itemOf sample.stored]
        sample.stored.Location.TitleLat =
      ([{ sample.stored with
            Start := ⟨1694186400, 0, time.FixedZone "" 14400⟩,
            End := ⟨1694186400, 0, time.FixedZone "" 14400⟩ }], none) ∧
    sample.stored.Start.sec = 1694186400 ∧
    sample.stored.End.sec = 1694445600 := by
  refine ⟨fun w table r e => rfl, ?_⟩
  decide!

/-! ### The instant of a civil time -/

theorem validDate_of_validCivil (day month year hour min sec : Nat)
    (hv : validCivil day month year hour min sec) :
    validDate (year : Int) (month : Int) (day : Int) := by
  obtain ⟨_, hm1, hm2, hd1, hd2, _, _, _⟩ := hv
  have ht := month_table (month : Int) ⟨by omega, by omega⟩
  refine ⟨by omega, by omega, by omega, ?_⟩
  have hcond : (((month : Int) == 2 && time.isLeap (year : Int)) = true) ↔
      (time.isLeap (year : Int) = true ∧ (month : Int) = 2) := by
    simp only [Bool.and_eq_true, beq_iff_eq]
    tauto
  unfold time.daysIn at hd2
  simp only [hcond] at hd2
  split_ifs at hd2 ⊢ with hc
  · have := hc.2
    omega
  · omega

theorem absDate_dayNumber (y m d : Int) (hv : validDate y m d) :
    time.absDate (dayNumber y m d) = (y, m, d) := by
  obtain ⟨hv1, he⟩ := absDate_spec (dayNumber y m d)
  obtain ⟨e1, e2, e3⟩ := date_eq _ _ _ _ _ _ hv1 hv he
  apply Prod.ext
  · exact e1
  · apply Prod.ext
    · exact e2
    · exact e3

/-- In a zone of one offset, the instant `Date` gives for a civil time that
exists reads, in that zone, as this civil time. -/
theorem Date_civil_fixed (loc : time.Location) (htx : loc.tx = [])
    (day month year hour min sec : Nat) (hv : validCivil day month year hour min sec) :
    (time.Date year month day hour min sec 0 loc).civil =
      ⟨loc.offset, year, month, day, hour, min, sec⟩ := by
  have hvd := validDate_of_validCivil day month year hour min sec hv
  have hab := absDate_dayNumber _ _ _ hvd
  obtain ⟨_, hm1, hm2, hd1, _, hh, hmi, hs⟩ := hv
  have hlook : ∀ x, loc.lookup x = (loc.offset, time.alpha, time.omegaEnd) := by
    intro x
    simp [time.Location.lookup, htx, time.lookupFrom]
  have n1 : ((month : Int) - 1) / 12 = 0 := by omega
  have n2 : ((month : Int) - 1) % 12 + 1 = month := by omega
  have n3 : ((sec : Int) + 0 / 1000000000) = sec := by omega
  have n4 : ((min : Int) + (sec : Int) / 60) = min := by omega
  have n5 : ((sec : Int) % 60) = sec := by omega
  have n6 : ((hour : Int) + (min : Int) / 60) = hour := by omega
  have n7 : ((min : Int) % 60) = min := by omega
  have n8 : ((day : Int) + (hour : Int) / 24) = day := by omega
  have n9 : ((hour : Int) % 24) = hour := by omega
  have hsec : (time.Date year month day hour min sec 0 loc).sec =
      (dayNumber year month day - time.unixEpochDays) * 86400 + hour * 3600 + min * 60 + sec
        - loc.offset := by
    simp only [time.Date, hlook, n1, n2, n3, n4, n5, n6, n7, n8, n9, add_zero, dayNumber,
      bne_iff_ne, ne_eq, ite_not]
    split_ifs <;> omega
  have hloc : (time.Date year month day hour min sec 0 loc).loc = loc := rfl
  simp only [time.Time.civil, hloc, hlook, hsec]
  have hday : ((dayNumber year month day - time.unixEpochDays) * 86400 + hour * 3600 + min * 60
      + sec - loc.offset + loc.offset) / 86400 + time.unixEpochDays = dayNumber year month day := by
    omega
  have hrem : ((dayNumber year month day - time.unixEpochDays) * 86400 + hour * 3600 + min * 60
      + sec - loc.offset + loc.offset) % 86400 = hour * 3600 + min * 60 + sec := by
    omega
  rw [hday, hrem, hab]
  have r1 : ((hour : Int) * 3600 + min * 60 + sec) / 3600 = hour := by omega
  have r2 : ((hour : Int) * 3600 + min * 60 + sec) % 3600 / 60 = min := by omega
  have r3 : ((hour : Int) * 3600 + min * 60 + sec) % 60 = sec := by omega
  rw [r1, r2, r3]

/-! ### `parseProblem`: a page with all its blocks -/

theorem affectedCustomers_group (doc whole cap : String)
    (h : regexp.FindSubmatch parser.outageAffectedCustomersRx doc = [whole, cap]) :
    cap.toList ≠ [] ∧ ∀ c ∈ cap.toList, time.isDigitChar c = true := by
  have e : parser.outageAffectedCustomersRx =
      (parser.rxLits "<div>" ++ [regexp.RxItem.one .space] ++ parser.rxLits "გამორთული" ++
        [regexp.RxItem.one .space] ++ parser.rxLits "აბონენტების" ++
        [regexp.RxItem.one .space] ++ parser.rxLits "რაოდენობა:" ++
        [regexp.RxItem.one .space]) ++
      (regexp.RxItem.groupOpen :: regexp.RxItem.plus .digit :: regexp.RxItem.groupClose ::
        (regexp.RxItem.one .space :: parser.rxLits "</div>")) := by decide
  rw [e] at h
  exact FindSubmatch_group _ _ .digit (by decide) (by decide) doc whole cap h

/-- C6, the claim as stated fails: the page `sample.pageWithHugeCount` has the
start block, the end block, the count block and four generic blocks, its count
being 9223372036854775808, and `parseProblem` returns the range error of
`strconv.Atoi` and the zero record. -/
theorem parseProblem_huge_count_counterexample :
    (regexp.FindSubmatch parser.outageStartLabelRx sample.pageWithHugeCount).length = 2 ∧
    (regexp.FindSubmatch parser.outageEndLabelRx sample.pageWithHugeCount).length = 2 ∧
    (regexp.FindSubmatch parser.outageAffectedCustomersRx sample.pageWithHugeCount).getD 1 "" =
      "9223372036854775808" ∧
    (regexp.FindAllSubmatch parser.outageAddressesRx sample.pageWithHugeCount).length = 4 ∧
    parser.parseProblem sample.w sample.location sample.pageWithHugeCount =
      .ret (outage.WaterGovGe.zero,
        some (Error.wrap ("parse problem [" ++ sample.pageWithHugeCount ++ "]")
          (Error.lib "strconv.Atoi: value out of range"))) := by
  decide!

/-- C6, amended: for a page whose start, end and count blocks are found, whose
two trimmed timestamps are the texts `DD/MM/YYYY HH:MM:SS` of civil times that
exist, whose count is below 2^63 and which has at least four generic blocks,
and for every location, `parseProblem` returns without error the record with
that location, with `Start` and `End` the instants `time.Date` gives these civil
times in the zone of the parser, with `AffectedCustomers` the number the digits
of the count block denote, and with the addresses of the blocks after the
third. When the zone has one offset, `Start` and `End` read in it as the two
civil times. -/
theorem parseProblem_well_formed (w : parser.WaterGovGe) (location : outage.Location)
    (doc wholeS capS wholeE capE wholeC capC : String)
    (d1 mo1 y1 h1 mi1 s1 d2 mo2 y2 h2 mi2 s2 : Nat)
    (hS : regexp.FindSubmatch parser.outageStartLabelRx doc = [wholeS, capS])
    (hE : regexp.FindSubmatch parser.outageEndLabelRx doc = [wholeE, capE])
    (hC : regexp.FindSubmatch parser.outageAffectedCustomersRx doc = [wholeC, capC])
    (hA : 4 ≤ (regexp.FindAllSubmatch parser.outageAddressesRx doc).length)
    (hSt : TrimSpace capS = civilText d1 mo1 y1 h1 mi1 s1)
    (hSv : validCivil d1 mo1 y1 h1 mi1 s1)
    (hEt : TrimSpace capE = civilText d2 mo2 y2 h2 mi2 s2)
    (hEv : validCivil d2 mo2 y2 h2 mi2 s2)
    (hCn : decimalValue capC < 2 ^ 63) :
    parser.parseProblem w location doc =
      .ret ({ Start := time.Date y1 mo1 d1 h1 mi1 s1 0 w.location,
              End := time.Date y2 mo2 d2 h2 mi2 s2 0 w.location,
              AffectedCustomers := (decimalValue capC : Nat),
              Location := location,
              AddressesGe := parser.addressesOf w
                ((regexp.FindAllSubmatch parser.outageAddressesRx doc).drop 3) }, none) ∧
    (w.location.tx = [] →
      (time.Date y1 mo1 d1 h1 mi1 s1 0 w.location).civil =
        ⟨w.location.offset, y1, mo1, d1, h1, mi1, s1⟩ ∧
      (time.Date y2 mo2 d2 h2 mi2 s2 0 w.location).civil =
        ⟨w.location.offset, y2, mo2, d2, h2, mi2, s2⟩) := by
  refine ⟨?_, fun htx => ⟨Date_civil_fixed w.location htx d1 mo1 y1 h1 mi1 s1 hSv,
    Date_civil_fixed w.location htx d2 mo2 y2 h2 mi2 s2 hEv⟩⟩
  obtain ⟨hne, hdig⟩ := affectedCustomers_group doc wholeC capC hC
  have hatoi : Atoi (TrimSpace capC) = (((decimalValue capC : Nat) : Int), none) := by
    rw [TrimSpace_digits capC hdig]
    exact Atoi_digits capC hne hdig hCn
  have hps := ParseInLocation_civilText d1 mo1 y1 h1 mi1 s1 hSv w.location
  have hpe := ParseInLocation_civilText d2 mo2 y2 h2 mi2 s2 hEv w.location
  have hA4 : ¬ (regexp.FindAllSubmatch parser.outageAddressesRx doc).length < 4 := by omega
  unfold parser.parseProblem
  simp only [hS, hE, hC, List.length_cons, List.length_nil, sliceIndex_one, GoResult.bind,
    hSt, hEt, parser.outageDateTimeLayout, hps, hpe, hatoi, hA4]
  rfl

/-- C6, at the page `sample.problemPage`, the times of the test of the source:
08/09/2023 19:20:00 and 11/09/2023 19:20:00 in the zone of the parser, and the
count 186. -/
theorem parseProblem_well_formed_witness :
    parser.parseProblem sample.w sample.location sample.problemPage =
      .ret ({ Start := time.Date 2023 9 8 19 20 0 0 sample.tbilisi,
              End := time.Date 2023 9 11 19 20 0 0 sample.tbilisi,
              AffectedCustomers := 186,
              Location := sample.location,
              AddressesGe := ["ოზურგეთი I შეს.", "ოზურგეთი ქ. N 15"] }, none) ∧
    (time.Date 2023 9 8 19 20 0 0 sample.tbilisi).civil = ⟨14400, 2023, 9, 8, 19, 20, 0⟩ ∧
    (time.Date 2023 9 11 19 20 0 0 sample.tbilisi).civil = ⟨14400, 2023, 9, 11, 19, 20, 0⟩ := by
  have h := parseProblem_well_formed sample.w sample.location sample.problemPage
    "<div>\n წყალმომარაგების შეწყვეტის დრო: 08/09/2023 19:20:00\n</div>" "08/09/2023 19:20:00"
    "<div>\n წყალმომარაგების აღდგენის დრო: 11/09/2023 19:20:00\n</div>" "11/09/2023 19:20:00"
    "<div> გამორთული აბონენტების რაოდენობა: 186 </div>" "186"
    8 9 2023 19 20 0 11 9 2023 19 20 0
    (by decide!) (by decide!) (by decide!) (by decide!) (by decide!)
    (by unfold validCivil; decide) (by decide!) (by unfold validCivil; decide) (by decide!)
  exact ⟨h.1, h.2 rfl⟩

/-! ### `parseProblem`: a page without start block, a page without addresses -/

/-- C11: for a page in which `outageStartLabelRx` finds no block, `parseProblem`
returns the zero record and the error `errNoOutageStart`, "outage start not
found", wrapped with the page, whatever the location and the rest of the page
are. -/
theorem parseProblem_without_start (w : parser.WaterGovGe) (location : outage.Location)
    (doc : String)
    (h : regexp.FindSubmatch parser.outageStartLabelRx doc = []) :
    parser.parseProblem w location doc =
      .ret (outage.WaterGovGe.zero,
        some (Error.wrap ("parse problem [" ++ doc ++ "]") parser.errNoOutageStart)) ∧
    parser.errNoOutageStart = Error.parser "outage start not found" := by
  refine ⟨?_, rfl⟩
  unfold parser.parseProblem
  simp only [h, List.length_nil, Nat.ofNat_pos, if_true]

/-- C11, at the page `sample.pageWithoutStart`, which has end, count and address
blocks. -/
theorem parseProblem_without_start_witness :
    regexp.FindSubmatch parser.outageStartLabelRx sample.pageWithoutStart = [] ∧
    parser.parseProblem sample.w sample.location sample.pageWithoutStart =
      .ret (outage.WaterGovGe.zero,
        some (Error.wrap ("parse problem [" ++ sample.pageWithoutStart ++ "]")
          (Error.parser "outage start not found"))) :=
  ⟨by decide!,
    (parseProblem_without_start sample.w sample.location sample.pageWithoutStart
      (by decide!)).1⟩

/-- C12: for a page whose start, end and count blocks are found, whose two
timestamps and whose count parse, and which has fewer than four generic blocks,
`parseProblem` returns the zero record and the error `errNoAddresses`, "no
addresses", wrapped with the page. -/
theorem parseProblem_without_addresses (w : parser.WaterGovGe) (location : outage.Location)
    (doc wholeS capS wholeE capE wholeC capC : String)
    (hS : regexp.FindSubmatch parser.outageStartLabelRx doc = [wholeS, capS])
    (hE : regexp.FindSubmatch parser.outageEndLabelRx doc = [wholeE, capE])
    (hC : regexp.FindSubmatch parser.outageAffectedCustomersRx doc = [wholeC, capC])
    (hps : (time.ParseInLocation parser.outageDateTimeLayout (TrimSpace capS) w.location).2 = none)
    (hpe : (time.ParseInLocation parser.outageDateTimeLayout (TrimSpace capE) w.location).2 = none)
    (hpc : (Atoi (TrimSpace capC)).2 = none)
    (hA : (regexp.FindAllSubmatch parser.outageAddressesRx doc).length < 4) :
    parser.parseProblem w location doc =
      .ret (outage.WaterGovGe.zero,
        some (Error.wrap ("parse problem [" ++ doc ++ "]") parser.errNoAddresses)) ∧
    parser.errNoAddresses = Error.parser "no addresses" := by
  refine ⟨?_, rfl⟩
  unfold parser.parseProblem
  simp only [hS, hE, hC, List.length_cons, List.length_nil, sliceIndex_one, GoResult.bind]
  cases hs : time.ParseInLocation parser.outageDateTimeLayout (TrimSpace capS) w.location with
  | mk t1 e1 =>
    cases he : time.ParseInLocation parser.outageDateTimeLayout (TrimSpace capE) w.location with
    | mk t2 e2 =>
      cases hc : Atoi (TrimSpace capC) with
      | mk n e3 =>
        rw [hs] at hps
        rw [he] at hpe
        rw [hc] at hpc
        simp only at hps hpe hpc
        subst hps
        subst hpe
        subst hpc
        simp [hA]

/-- C12, at the page `sample.pageWithoutAddresses`, whose generic blocks are the
start, end and count blocks only. -/
theorem parseProblem_without_addresses_witness :
    (regexp.FindAllSubmatch parser.outageAddressesRx sample.pageWithoutAddresses).length = 3 ∧
    parser.parseProblem sample.w sample.location sample.pageWithoutAddresses =
      .ret (outage.WaterGovGe.zero,
        some (Error.wrap ("parse problem [" ++ sample.pageWithoutAddresses ++ "]")
          (Error.parser "no addresses"))) :=
  ⟨by decide!,
    (parseProblem_without_addresses sample.w sample.location sample.pageWithoutAddresses
      "<div>\n წყალმომარაგების შეწყვეტის დრო: 08/09/2023 19:20:00\n</div>" "08/09/2023 19:20:00"
      "<div>\n წყალმომარაგების აღდგენის დრო: 11/09/2023 19:20:00\n</div>" "11/09/2023 19:20:00"
      "<div> გამორთული აბონენტების რაოდენობა: 186 </div>" "186"
      (by decide!) (by decide!) (by decide!) (by decide!) (by decide!) (by decide!)
      (by decide!)).1⟩

/-! ### The service: one cycle -/

/-- C13: in a cycle, `refreshWaterOutages` calls `SaveOutages` exactly when
`GetWaterOutages` has returned without error, and then once, after it, with the
records it returned, and it returns what `SaveOutages` returns, the error
wrapped, with the world as `SaveOutages` left it; when `GetWaterOutages` returns
an error the only call is `GetWaterOutages`, the error is returned wrapped and
the world is as the plugin left it. In `StartRefreshingData`, a cycle that
returns an error, from either call, has the loop log that error under "refresh
water outages" and go to the receive from the ticker, as a cycle without error
does without logging; at the receive the loop waits for a tick, takes it and
goes to the `select`, and from there, the context being live, into the next
cycle. -/
theorem refreshWaterOutages_saves_once {σ : Type} (s : outage.Service σ) (world : σ) :
    (∀ waterOutages err world1, s.plugin world = .ret ((waterOutages, some err), world1) →
      s.refreshWaterOutages world =
        (.ret (some (Error.wrap "refresh water outages" err), world1), [.GetWaterOutages])) ∧
    (∀ waterOutages world1 world2,
      s.plugin world = .ret ((waterOutages, none), world1) →
      s.repo world1 waterOutages = .ret (none, world2) →
      s.refreshWaterOutages world =
        (.ret (none, world2), [.GetWaterOutages, .SaveOutages waterOutages])) ∧
    (∀ waterOutages err world1 world2,
      s.plugin world = .ret ((waterOutages, none), world1) →
      s.repo world1 waterOutages = .ret (some err, world2) →
      s.refreshWaterOutages world =
        (.ret (some (Error.wrap "refresh water outages" err), world2),
          [.GetWaterOutages, .SaveOutages waterOutages])) ∧
    (∀ waterOutages world1 msg,
      s.plugin world = .ret ((waterOutages, none), world1) →
      s.repo world1 waterOutages = .panic msg →
      s.refreshWaterOutages world =
        (.panic msg, [.GetWaterOutages, .SaveOutages waterOutages])) ∧
    (∀ msg, s.plugin world = .panic msg →
      s.refreshWaterOutages world = (.panic msg, [.GetWaterOutages])) ∧
    ((∃ outages, outage.Call.SaveOutages outages ∈ (s.refreshWaterOutages world).2) ↔
      ∃ waterOutages world1, s.plugin world = .ret ((waterOutages, none), world1)) ∧
    (∀ (l : outage.Loop σ) err world1 calls, l.pc = .running → l.world = world →
      s.refreshWaterOutages world = (.ret (some err, world1), calls) →
      s.step l .loop =
        some { l with pc := .waiting, world := world1, calls := l.calls ++ calls,
                      log := l.log ++ [.error "refresh water outages" err] }) ∧
    (∀ (l : outage.Loop σ) world1 calls, l.pc = .running → l.world = world →
      s.refreshWaterOutages world = (.ret (none, world1), calls) →
      s.step l .loop =
        some { l with pc := .waiting, world := world1, calls := l.calls ++ calls }) ∧
    (∀ (l : outage.Loop σ), l.pc = .waiting → l.tick = true →
      s.step l .loop = some { l with pc := .checking, tick := false }) ∧
    (∀ (l : outage.Loop σ), l.pc = .waiting → l.tick = false → s.step l .loop = none) ∧
    (∀ (l : outage.Loop σ), l.pc = .checking → l.cancelled = false →
      s.step l .loop = some { l with pc := .running }) := by
  refine ⟨?_, ?_, ?_, ?_, ?_, ?_, ?_, ?_, ?_, ?_, ?_⟩
  · intro waterOutages err world1 h
    unfold outage.Service.refreshWaterOutages
    rw [h]
  · intro waterOutages world1 world2 h1 h2
    unfold outage.Service.refreshWaterOutages
    rw [h1]
    simp only
    rw [h2]
  · intro waterOutages err world1 world2 h1 h2
    unfold outage.Service.refreshWaterOutages
    rw [h1]
    simp only
    rw [h2]
  · intro waterOutages world1 msg h1 h2
    unfold outage.Service.refreshWaterOutages
    rw [h1]
    simp only
    rw [h2]
  · intro msg h
    unfold outage.Service.refreshWaterOutages
    rw [h]
  · unfold outage.Service.refreshWaterOutages
    cases hp : s.plugin world with
    | panic msg => simp
    | ret r =>
      obtain ⟨⟨outs, e⟩, w1⟩ := r
      cases e with
      | some err => simp
      | none =>
        simp only
        cases s.repo w1 outs with
        | panic msg => simp
        | ret r2 =>
          obtain ⟨e2, w2⟩ := r2
          cases e2 <;> simp
  · intro l err world1 calls hpc hw h
    subst hw
    simp only [outage.Service.step, outage.Service.StartRefreshingData, hpc, h]
    rfl
  · intro l world1 calls hpc hw h
    subst hw
    simp only [outage.Service.step, outage.Service.StartRefreshingData, hpc, h]
    simp [outage.logOf]
  · intro l hpc ht
    simp only [outage.Service.step, outage.Service.StartRefreshingData, hpc, ht, if_true]
  · intro l hpc ht
    simp [outage.Service.step, outage.Service.StartRefreshingData, hpc, ht]
  · intro l hpc hc
    simp [outage.Service.step, outage.Service.StartRefreshingData, hpc, hc]

/-- C13, at the services of `sample`: over the parser that serves both pages the
cycle saves the two records once and leaves their two items in the table; over
the parser whose second fetch fails the cycle saves nothing and returns the
error, the loop logs it and goes to the receive, and after the next tick it
runs its second cycle, which fails and is logged in the same way, the table
empty. -/
theorem refreshWaterOutages_saves_once_witness :
    sample.service.refreshWaterOutages [] =
      (.ret (none, sample.records.map repo.itemOf),
        [.GetWaterOutages, .SaveOutages sample.records]) ∧
    sample.serviceOfSeven.refreshWaterOutages [] =
      (.ret (some (Error.wrap "refresh water outages"
        (Error.wrap "get outages" (Error.wrap "parse problems"
          (Error.wrap "fetch html file at http://water.gov.ge/page/problem/9"
            (Error.lib "no such host"))))), []), [.GetWaterOutages]) ∧
    sample.serviceOfSeven.step ⟨.running, false, false, false, [], [], []⟩ .loop =
      some ⟨.waiting, false, false, false, [], [.GetWaterOutages],
        [.error "refresh water outages" (Error.wrap "refresh water outages"
          (Error.wrap "get outages" (Error.wrap "parse problems"
            (Error.wrap "fetch html file at http://water.gov.ge/page/problem/9"
              (Error.lib "no such host")))))]⟩ ∧
    sample.serviceOfSeven.run [.loop, .loop, .tick, .loop, .loop, .loop] (outage.Loop.init []) =
      some ⟨.waiting, false, false, false, [], [.GetWaterOutages, .GetWaterOutages],
        [.error "refresh water outages" (Error.wrap "refresh water outages"
          (Error.wrap "get outages" (Error.wrap "parse problems"
            (Error.wrap "fetch html file at http://water.gov.ge/page/problem/9"
              (Error.lib "no such host"))))),
         .error "refresh water outages" (Error.wrap "refresh water outages"
          (Error.wrap "get outages" (Error.wrap "parse problems"
            (Error.wrap "fetch html file at http://water.gov.ge/page/problem/9"
              (Error.lib "no such host")))))]⟩ :=
  ⟨(refreshWaterOutages_saves_once sample.service []).2.1 sample.records [] _
      (by decide!) (by decide!),
   (refreshWaterOutages_saves_once sample.serviceOfSeven []).1 [] _ [] (by decide!),
   (refreshWaterOutages_saves_once sample.serviceOfSeven []).2.2.2.2.2.2.1
      ⟨.running, false, false, false, [], [], []⟩ _ [] [.GetWaterOutages] rfl rfl (by decide!),
   by decide!⟩

/-! ### The service: the loop, the context and the ticker -/

/-- The loop at the receive, the context cancelled, the ticker stopped and its
channel empty: no event can take place. -/
theorem step_blocked {σ : Type} (s : outage.Service σ) (l : outage.Loop σ)
    (hpc : l.pc = .waiting) (hc : l.cancelled = true) (hs : l.tickerStopped = true)
    (ht : l.tick = false) : ∀ ev, s.step l ev = none := by
  intro ev
  cases ev <;>
    simp [outage.Service.step, outage.Service.StartRefreshingData, outage.NewService, hpc, hc,
      hs, ht]

theorem run_blocked {σ : Type} (s : outage.Service σ) (l : outage.Loop σ)
    (h : ∀ ev, s.step l ev = none) :
    ∀ (evs : List outage.Event) (l1 : outage.Loop σ), s.run evs l = some l1 → l1 = l := by
  intro evs l1 hr
  cases evs with
  | nil =>
    simp only [outage.Service.run, Option.some.injEq] at hr
    exact hr.symm
  | cons ev evs =>
    simp [outage.Service.run, h ev] at hr

/-- Once the context is cancelled no event takes the loop into a cycle. -/
theorem no_cycle_after_cancel {σ : Type} (s : outage.Service σ) (l l1 : outage.Loop σ)
    (ev : outage.Event) (hc : l.cancelled = true) (hstep : s.step l ev = some l1)
    (hrun : l1.pc = .running) : l.pc = .running := by
  cases ev with
  | loop =>
    simp only [outage.Service.step, outage.Service.StartRefreshingData] at hstep
    cases hpc : l.pc with
    | running => rfl
    | checking =>
      rw [hpc] at hstep
      simp only [hc, if_true, Option.some.injEq] at hstep
      subst hstep
      simp at hrun
    | waiting =>
      rw [hpc] at hstep
      simp only at hstep
      split at hstep
      · simp only [Option.some.injEq] at hstep
        subst hstep
        simp at hrun
      · simp at hstep
    | stopped => rw [hpc] at hstep; simp at hstep
    | crashed => rw [hpc] at hstep; simp at hstep
  | cancel =>
    simp [outage.Service.step, hc] at hstep
  | stop =>
    simp only [outage.Service.step, outage.NewService] at hstep
    split at hstep
    · simp only [Option.some.injEq] at hstep
      subst hstep
      exact hrun
    · simp at hstep
  | tick =>
    simp only [outage.Service.step] at hstep
    split at hstep
    · simp only [Option.some.injEq] at hstep
      subst hstep
      exact hrun
    · simp at hstep

/-- C14: with the service of `sample`, the schedule in which the loop runs its
first cycle and goes to the receive from the ticker, then the context is
cancelled and the goroutine of `NewService` stops the ticker, ends in a state
where cancellation has occurred, the loop is at the receive and not stopped,
and no event can take place: every further schedule leaves the machine there,
so the loop never reaches its `return`. What holds is that no event takes the
loop into a cycle once the context is cancelled. -/
theorem StartRefreshingData_blocked_on_stopped_ticker :
    (∃ l, sample.service.run [.loop, .loop, .cancel, .stop] (outage.Loop.init []) = some l ∧
      l.pc = .waiting ∧ l.cancelled = true ∧ l.tickerStopped = true ∧ l.tick = false ∧
      (∀ ev, sample.service.step l ev = none) ∧
      (∀ evs l1, sample.service.run evs l = some l1 → l1.pc ≠ .stopped)) ∧
    (∀ (l l1 : outage.Loop (List repo.Item)) (ev : outage.Event), l.cancelled = true →
      sample.service.step l ev = some l1 → l1.pc = .running → l.pc = .running) := by
  refine ⟨?_, fun l l1 ev => no_cycle_after_cancel sample.service l l1 ev⟩
  have hf : (sample.service.run [.loop, .loop, .cancel, .stop] (outage.Loop.init [])).map
      (fun l => (l.pc, l.cancelled, l.tickerStopped, l.tick)) =
      some (.waiting, true, true, false) := by decide!
  cases hrun : sample.service.run [.loop, .loop, .cancel, .stop] (outage.Loop.init []) with
  | none => rw [hrun] at hf; simp at hf
  | some l =>
    rw [hrun] at hf
    simp only [Option.map_some', Option.some.injEq, Prod.mk.injEq] at hf
    obtain ⟨h1, h2, h3, h4⟩ := hf
    have hb := step_blocked sample.service l h1 h2 h3 h4
    refine ⟨l, rfl, h1, h2, h3, h4, hb, ?_⟩
    intro evs l1 hr
    rw [run_blocked sample.service l hb evs l1 hr, h1]
    decide

end OutageMonitor
